import Mathlib

/-!
Verification of the `bpf-script` compiler (`src/compiler.rs`).

This file gives a shallow embedding of the compiler: the AST produced by the
peginator grammar, the BTF qualified-type data model, the compiler state
(`Compiler` struct), and the instruction-emission functions, translated
function by function from `src/compiler.rs`.  Machine integers are modelled
as `Nat`/`Int` with explicit two's-complement wrapping where the Rust code
performs fixed-width arithmetic (release-mode wrapping semantics).
-/

namespace BpfScript

/-- Two's-complement wrap of an integer to a signed 8-bit value (`as i8`). -/
def wrap8 (x : Int) : Int := (x + 128).emod 256 - 128

/-- Two's-complement wrap of an integer to a signed 16-bit value (`as i16`). -/
def wrap16 (x : Int) : Int := (x + 32768).emod 65536 - 32768

/-- Two's-complement wrap of an integer to a signed 32-bit value (`as i32`). -/
def wrap32 (x : Int) : Int := (x + 2147483648).emod 4294967296 - 2147483648

/-- Two's-complement wrap of an integer to a signed 64-bit value (`as i64`). -/
def wrap64 (x : Int) : Int :=
  (x + 9223372036854775808).emod 18446744073709551616 - 9223372036854775808

/-- Truncation of an integer to an unsigned 32-bit value (`as u32`). -/
def toU32 (x : Int) : Nat := (x.emod 4294967296).toNat

/-- The BPF registers (`bpf_ins::Register`). -/
inductive Reg where
  | r0 | r1 | r2 | r3 | r4 | r5 | r6 | r7 | r8 | r9 | r10
deriving DecidableEq, Repr

/-- Model of `Register::from_num` restricted to the numbers the compiler uses. -/
def regFromNum (n : Nat) : Option Reg :=
  match n with
  | 0 => some .r0
  | 1 => some .r1
  | 2 => some .r2
  | 3 => some .r3
  | 4 => some .r4
  | 5 => some .r5
  | 6 => some .r6
  | 7 => some .r7
  | 8 => some .r8
  | 9 => some .r9
  | 10 => some .r10
  | _ => none

/-- Model of `bpf_ins::MemoryOpLoadType` (external crate): the compiler only ever
constructs the `Void` variant itself; the remaining variants come from the
helper catalog and are opaque to the compiler, so they are modelled by an
index. -/
inductive MemoryOpLoadType where
  | void
  | other (n : Nat)
deriving DecidableEq, Repr

/-- The instructions constructed by the compiler (the subset of the external
`bpf_ins::Instruction` constructors that `src/compiler.rs` uses).  Immediate
and offset operands carry the already-wrapped integer value the Rust caller
passes (`i8`/`i16`/`i32`/`i64` as appropriate). -/
inductive Instruction where
  | store8 (dst : Reg) (offset : Int) (imm : Int)
  | store16 (dst : Reg) (offset : Int) (imm : Int)
  | store32 (dst : Reg) (offset : Int) (imm : Int)
  | store64 (dst : Reg) (offset : Int) (imm : Int)
  | storex64 (dst : Reg) (offset : Int) (src : Reg)
  | loadx8 (dst : Reg) (src : Reg) (offset : Int)
  | loadx16 (dst : Reg) (src : Reg) (offset : Int)
  | loadx32 (dst : Reg) (src : Reg) (offset : Int)
  | loadx64 (dst : Reg) (src : Reg) (offset : Int)
  | mov64 (dst : Reg) (imm : Int)
  | movx64 (dst : Reg) (src : Reg)
  | add64 (dst : Reg) (imm : Int)
  | loadtype (dst : Reg) (imm : Int) (lt : MemoryOpLoadType)
  | call (id : Nat)
  | exit
deriving DecidableEq, Repr

/-- Base types of the external BTF type database (`btf::types::Type`),
restricted to the variants the compiler inspects (spec section 3: Void,
Integer(size, signedness), Struct(size, name to bit-offset/type-id map),
Array(element type-id, element count)).  Struct members are an association
list name to (bit-offset, type-id). -/
inductive BaseType where
  | void
  | integer (size : Nat) (isSigned : Bool)
  | structTy (size : Nat) (members : List (String × Nat × Nat))
  | array (elementType : Nat) (numElements : Nat)
deriving DecidableEq, Repr

/-- Model of `btf::types::QualifiedType`: a base type plus a pointer-indirection
count. -/
structure QualifiedType where
  base_type : BaseType
  num_refs : Nat
deriving DecidableEq, Repr

/-- Model of `QualifiedType::is_pointer`. -/
def QualifiedType.is_pointer (t : QualifiedType) : Bool := t.num_refs > 0

/-- Model of `QualifiedType::get_size` (byte size).  A pointer is 8 bytes; otherwise
the base type's recorded size.  The size of a raw array base type is never
consulted by any code path verified here, so it is modelled as 0. -/
def QualifiedType.get_size (t : QualifiedType) : Nat :=
  if t.num_refs > 0 then 8
  else
    match t.base_type with
    | .void => 0
    | .integer sz _ => sz
    | .structTy sz _ => sz
    | .array _ _ => 0

/-- Model of `QualifiedType::int::<iN/uN>()`. -/
def QualifiedType.int (size : Nat) (isSigned : Bool) : QualifiedType :=
  ⟨.integer size isSigned, 0⟩

/-- Model of `Default::default()` for `QualifiedType`: the void placeholder type. -/
def qtDefault : QualifiedType := ⟨.void, 0⟩

/-- The external BTF type database (`btf::BtfTypes`), modelled as two
association lists: by-name and by-id lookup. -/
structure BtfTypes where
  byName : List (String × QualifiedType)
  byId : List (Nat × QualifiedType)
deriving DecidableEq, Repr

def BtfTypes.resolve_type_by_name (db : BtfTypes) (name : String) :
    Option QualifiedType :=
  (db.byName.find? (fun p => p.1 = name)).map (·.2)

def BtfTypes.resolve_type_by_id (db : BtfTypes) (id : Nat) :
    Option QualifiedType :=
  (db.byId.find? (fun p => p.1 = id)).map (·.2)

/-- Modelled from the spec: the external helper/call catalog consumed by the
compiler (`Helpers` lives in `src/helpers.rs`, which is not among the provided
sources; spec sections 4.7 and 6 describe it as a name-to-numeric-id lookup
plus an ordered list of per-argument load-type hints whose length bounds the
arity).  It is modelled as an association list from helper name to
(numeric id, argument load-type hints). -/
structure HelperCatalog where
  entries : List (String × Nat × List MemoryOpLoadType)
deriving DecidableEq, Repr

/-- Model of `Helpers::from_string`, against the modelled catalog. -/
def HelperCatalog.from_string (hc : HelperCatalog) (name : String) :
    Option (Nat × List MemoryOpLoadType) :=
  (hc.entries.find? (fun p => p.1 = name)).map (·.2)

/-- Model of `Helpers::ProbeReadKernel as u32` (the numeric id is pinned by the
repository's tests in `src/lib.rs`, which expect `call #113`). -/
def probeReadKernelId : Nat := 113

/-! ## The AST (the peginator grammar productions in `src/compiler.rs`) -/

/-- Model of `TypeDecl = [is_ref:ReferencePrefix] name:Ident`.  The `is_ref` marker is
modelled as a `Bool`. -/
structure TypeDecl where
  is_ref : Bool
  name : String
deriving DecidableEq, Repr

/-- Model of `MemberAccess = '.' name:Ident`. -/
structure MemberAccess where
  name : String
deriving DecidableEq, Repr

/-- Model of `ArrayIndex = '[' element:Immediate ']'` (the immediate is a decimal
digit string). -/
structure ArrayIndex where
  element : String
deriving DecidableEq, Repr

/-- Model of `DeReference = @:MemberAccess | @:ArrayIndex`. -/
inductive DeReference where
  | memberAccess (ma : MemberAccess)
  | arrayIndex (ai : ArrayIndex)
deriving DecidableEq, Repr

/-- Model of `Prefix = @:ReferencePrefix | @:DeReferencePrefix` (the `&` and `*`
lvalue markers; the grammar production is named `Prefix` in the source). -/
inductive RefKind where
  | referenceMark
  | dereferenceMark
deriving DecidableEq, Repr

/-- Model of `LValue = [prefix:Prefix] name:Ident {derefs:DeReference}`.  The source
field named `prefix` is modelled as `refMark`. -/
structure LValue where
  refMark : Option RefKind
  name : String
  derefs : List DeReference
deriving DecidableEq, Repr

mutual

/-- Model of `RValue = @:FunctionCall | @:Immediate | @:LValue`. -/
inductive RValue where
  | functionCall (c : FunctionCall)
  | immediate (s : String)
  | lvalue (l : LValue)

/-- Model of `FunctionCall = name:Ident '(' [args:RValue ...] ')'`. -/
inductive FunctionCall where
  | mk (name : String) (args : List RValue)

end

/-- Callee name of a function call. -/
def FunctionCall.name : FunctionCall → String
  | .mk n _ => n

/-- Argument list of a function call. -/
def FunctionCall.args : FunctionCall → List RValue
  | .mk _ a => a

/-- Model of `Assignment = left:LValue [':' type_name:TypeDecl] '=' right:RValue`. -/
structure Assignment where
  left : LValue
  type_name : Option TypeDecl
  right : RValue

/-- Model of `Return = 'return' [value:RValue]`. -/
structure Return where
  value : Option RValue

/-- Model of `Expression = @:Assignment | @:FunctionCall | @:Return`. -/
inductive Expression where
  | assignment (a : Assignment)
  | functionCall (c : FunctionCall)
  | ret (r : Return)

/-- Model of `TypedArgument = name:Ident ':' type_name:TypeDecl`. -/
structure TypedArgument where
  name : String
  type_name : TypeDecl
deriving DecidableEq, Repr

/-- Model of `InputLine = 'fn' '(' [args:TypedArgument ...] ')'`. -/
structure InputLine where
  args : List TypedArgument
deriving DecidableEq, Repr

/-- Model of `ScriptDef = input:InputLine {NewLine exprs:Expression}$`. -/
structure ScriptDef where
  input : InputLine
  exprs : List Expression

/-! ## Compiler state -/

/-- Model of `VariableLocation`: a captured host value (stored as a `u32`) or a stack
slot offset (an `i16` in the source). -/
inductive VariableLocation where
  | specialImmediate (v : Nat)
  | stack (offset : Int)
deriving DecidableEq, Repr

/-- Model of `VariableInfo`. -/
structure VariableInfo where
  var_type : QualifiedType
  location : VariableLocation
deriving DecidableEq, Repr

/-- The mutable fields of the `Compiler` struct.  `stack` is the `u32`
stack-high-water counter, `exprNum` the `u32` diagnostic line counter
(`expr_num`).  The immutable `types` reference and the helper catalog are
passed separately as a context. -/
/- NOTE: the source field is named `variables`; that word is a reserved
command token in Lean, so the field is named `vars`. -/
structure CState where
  vars : List (String × VariableInfo)
  instructions : List Instruction
  stack : Nat
  exprNum : Nat
deriving DecidableEq, Repr

/-- The immutable context of a compilation: the BTF type database the
compiler was created against and the helper catalog. -/
structure Ctx where
  types : BtfTypes
  helpers : HelperCatalog
deriving DecidableEq, Repr

/-- Model of `Compiler::create`. -/
def CState.create : CState :=
  { vars := [], instructions := [], stack := 0, exprNum := 1 }

/-- Model of `HashMap::insert` on the modelled symbol table (replaces any existing
binding of the same name). -/
def insertVar (vars : List (String × VariableInfo)) (name : String)
    (info : VariableInfo) : List (String × VariableInfo) :=
  (name, info) :: vars.filter (fun p => p.1 ≠ name)

/-- Model of `HashMap::get` on the modelled symbol table. -/
def lookupVar (vars : List (String × VariableInfo)) (name : String) :
    Option VariableInfo :=
  (vars.find? (fun p => p.1 = name)).map (·.2)

/-- Model of `Compiler::capture`: the value is truncated to its low 32 bits
(`value as u32`) and stored as a special-immediate variable of 64-bit signed
integer type (`QualifiedType::int::<i64>()`). -/
def capture (st : CState) (name : String) (value : Int) : CState :=
  { st with
    vars := insertVar st.vars name
      ⟨QualifiedType.int 8 true, .specialImmediate (toU32 value)⟩ }

/-- Append one instruction (`self.instructions.push(..)`). -/
def pushIns (st : CState) (i : Instruction) : CState :=
  { st with instructions := st.instructions ++ [i] }

/-- Append a list of instructions (a sequence of pushes). -/
def pushInsList (st : CState) (is : List Instruction) : CState :=
  { st with instructions := st.instructions ++ is }

/-! ## Diagnostic messages (the exact `bail!` strings of the source) -/

def lineTag (n : Nat) : String := "[Line " ++ toString n ++ "] "

def msgBadBtfId (n id : Nat) : String :=
  lineTag n ++ "Bad BTF database: type id \"" ++ toString id ++ "\" not found."

def msgNoType (n : Nat) (name : String) : String :=
  lineTag n ++ "No type found with the name \"" ++ name ++ "\"."

def msgNoVariable (n : Nat) (name : String) : String :=
  lineTag n ++ "No variable with the name \"" ++ name ++ "\"."

def msgBadImmediate (n : Nat) (s : String) : String :=
  lineTag n ++ "Bad immediate value \"" ++ s ++ "\"."

def msgStackExceeded (n : Nat) : String :=
  lineTag n ++ "Stack size exceeded 512 bytes with this assignment."

def msgImmediateNonInteger (n : Nat) : String :=
  lineTag n ++ "Can only assign immediates to integer/inferred types."

def msgSizeMismatch (n : Nat) : String :=
  lineTag n ++ "Cannot assign two types of different sizes."

def msgDerefUnimplemented (n : Nat) : String :=
  lineTag n ++ "Dereferencing is no currently implemented."

def msgCallReturnNon64 (n : Nat) : String :=
  lineTag n ++ "Cannot store function return value in non-64-bit integer."

def msgCallReturnNonInteger (n : Nat) : String :=
  lineTag n ++ "Cannot store function return in non-integer type."

def msgMemberMissing (n : Nat) (name : String) : String :=
  lineTag n ++ "Member \"" ++ name ++ "\" doesn" ++ "\x27t exist."

def msgBitfield (n : Nat) : String :=
  lineTag n ++ "Bitfield accesses aren" ++ "\x27t supported."

def msgNonStructMember (n : Nat) : String :=
  lineTag n ++ "Tried to get member on non-struct type."

def msgArrayOutOfBounds (n idx size : Nat) : String :=
  lineTag n ++ "Tried to access array index " ++ toString idx ++
    " when array size is " ++ toString size ++ "."

def msgIndirectAssign (n : Nat) : String :=
  lineTag n ++ "Indirect assignments aren" ++ "\x27t supported."

def msgOffsetTooLarge : String :=
  "out of range integral type conversion attempted"

def msgRetype (n : Nat) (name : String) : String :=
  lineTag n ++ "Can" ++ "\x27t re-type \"" ++ name ++ "\" after first assignment."

def msgCannotReassign (n : Nat) (name : String) : String :=
  lineTag n ++ "Variable \"" ++ name ++ "\" cannot be re-assigned."

def msgAssignSpecial (n : Nat) : String :=
  lineTag n ++ "Cannot assign a value to a special immediate variable."

def msgDerefSpecial (n : Nat) : String :=
  lineTag n ++ "Cannot dereference a special immediate variable."

def msgVarTooLarge (n : Nat) : String :=
  lineTag n ++ "Variable too large to be passed in a register."

def msgRefNonPointer (n : Nat) : String :=
  lineTag n ++ "Cannot reference a non-pointer type."

def msgUnknownHelper (n : Nat) (name : String) : String :=
  lineTag n ++ "Unknown helper function \"" ++ name ++ "\"."

def msgTooManyArgs (n : Nat) : String :=
  lineTag n ++ "Function calls can have a maximum of 5 arguments."

/-- Modelled from the spec: `Helpers::get_arg_types` returns the catalog's
hint list and the source indexes it with `types[i]` (a Rust panic when `i`
is out of range; the spec says the hint list's length implicitly bounds the
arity, making that index in range for real catalogs).  The panic is modelled
as a compile error. -/
def msgArgTypeOutOfRange : String :=
  "helper catalog argument load-type index out of range"

def msgTooManyPrologueArgs : String := "too many args"

/-! ## Helper functions of `Compiler` -/

/-- Model of `Compiler::resolve_type_by_id`. -/
def resolve_type_by_id (ctx : Ctx) (st : CState) (id : Nat) :
    Except String QualifiedType :=
  match ctx.types.resolve_type_by_id id with
  | some t => .ok t
  | none => .error (msgBadBtfId st.exprNum id)

/-- Model of `Compiler::resolve_type_by_decl`. -/
def resolve_type_by_decl (ctx : Ctx) (st : CState) (decl : TypeDecl) :
    Except String QualifiedType :=
  match ctx.types.resolve_type_by_name decl.name with
  | some t =>
      if decl.is_ref then .ok { t with num_refs := t.num_refs + 1 } else .ok t
  | none => .error (msgNoType st.exprNum decl.name)

/-- Model of `Compiler::get_variable_by_name`. -/
def get_variable_by_name (st : CState) (name : String) :
    Except String VariableInfo :=
  match lookupVar st.vars name with
  | some info => .ok info
  | none => .error (msgNoVariable st.exprNum name)

/-- The numeric value of a decimal digit string (the grammar's `Immediate`
production: one or more characters in `'0'..'9'`); `none` when the string is
not such a digit string. -/
def parseDecDigits (s : String) : Option Nat :=
  if s.length > 0 ∧ s.data.all Char.isDigit then
    some (s.data.foldl (fun a c => a * 10 + (c.toNat - 48)) 0)
  else none

/-- Model of `Compiler::parse_immediate::<T>` for an unsigned or nonnegative-signed
target range: Rust's `str::parse` on the digit strings the grammar admits
succeeds exactly when the value fits the target type's range `[0, hi]`
(digit strings are never negative, so the lower bound is irrelevant). -/
def parse_immediate (st : CState) (hi : Nat) (s : String) : Except String Nat :=
  match parseDecDigits s with
  | some v => if v ≤ hi then .ok v else .error (msgBadImmediate st.exprNum s)
  | none => .error (msgBadImmediate st.exprNum s)

/-- Model of `Compiler::get_stack`: `-(self.stack as i16)` (the `u32` counter is
truncated to 16 bits and reinterpreted as signed before negation). -/
def get_stack (st : CState) : Int := -(wrap16 (st.stack : Int))

/-- Model of `Compiler::push_stack`: `self.stack + sz` is `u32` arithmetic, so the sum
wraps modulo `2^32` (Rust release-mode semantics); the request fails when the
(wrapped) total exceeds 512, otherwise the bytes are committed and the new
negative frame offset is returned. -/
def push_stack (st : CState) (sz : Nat) : Except String (Int × CState) :=
  let sum := (st.stack + sz) % 4294967296
  if sum > 512 then .error (msgStackExceeded st.exprNum)
  else
    let st' := { st with stack := sum }
    .ok (get_stack st', st')

/-! ## `Compiler::emit_init_stack` and `Compiler::emit_push_immediate` -/

/-- Model of `x << k` on `i64` (low 64 bits kept, reinterpreted as signed). -/
def i64shl (x : Int) (k : Nat) : Int := wrap64 (x * 2 ^ k)

/-- The unsigned 64-bit pattern of an `i64` value. -/
def bits64 (x : Int) : Nat := (x.emod 18446744073709551616).toNat

/-- Bitwise `|` on `i64` (bitwise or of the two's-complement patterns). -/
def i64or (a b : Int) : Int := wrap64 (Nat.lor (bits64 a) (bits64 b))

/-- The 64-bit fill pattern of `emit_init_stack`:
`value | value << 8 | ... | value << 56` where `value` is the sign-extended
input byte (`value as i64`). -/
def memsetPattern (value : Int) : Int :=
  i64or (i64or (i64or (i64or (i64or (i64or (i64or value
    (i64shl value 8)) (i64shl value 16)) (i64shl value 24))
    (i64shl value 32)) (i64shl value 40)) (i64shl value 48)) (i64shl value 56)

/-- The instruction sequence pushed by `emit_init_stack`: the loop counts and
cumulative offsets are the closed forms of the source's
`remaining`/`size`/`offset` loop bookkeeping (first `size / 8` eight-byte
stores, then `(size % 8) / 4` four-byte stores, then `(size % 8 % 4) / 2`
two-byte stores, then `size % 8 % 4 % 2` one-byte stores, the offset
advancing by the chunk width after each store, in `i16` arithmetic). -/
def initStackChunks (offset : Int) (v64 : Int) (size : Nat) :
    List Instruction :=
  let n8 := size / 8
  let r8 := size % 8
  let n4 := r8 / 4
  let r4 := r8 % 4
  let n2 := r4 / 2
  let n1 := r4 % 2
  (List.range n8).map
    (fun k => .store64 .r10 (wrap16 (offset + 8 * k)) v64) ++
  (List.range n4).map
    (fun k => .store32 .r10 (wrap16 (offset + 8 * n8 + 4 * k)) (wrap32 v64)) ++
  (List.range n2).map
    (fun k => .store16 .r10 (wrap16 (offset + 8 * n8 + 4 * n4 + 2 * k))
      (wrap16 v64)) ++
  (List.range n1).map
    (fun k => .store8 .r10 (wrap16 (offset + 8 * n8 + 4 * n4 + 2 * n2 + k))
      (wrap8 v64))

/-- Model of `Compiler::emit_init_stack` (`value` is the parsed `i8`). -/
def emit_init_stack (st : CState) (offset : Int) (value : Int) (size : Nat) :
    CState :=
  pushInsList st (initStackChunks offset (memsetPattern value) size)

/-- Model of `Compiler::emit_push_immediate`.  Returns the offset written, the
concrete type of the value, and the updated state. -/
def emit_push_immediate (st : CState) (imm_str : String)
    (cast_type : QualifiedType) (use_offset : Option Int) :
    Except String (Int × QualifiedType × CState) := do
  let (sz, is_signed) ←
    match cast_type.base_type with
    | .integer isz sg => pure (isz, sg)
    | .structTy ssz _ => pure (ssz, false)
    | .void => pure (8, false)
    | .array _ _ => .error (msgImmediateNonInteger st.exprNum)
  let (offset, st) ←
    match use_offset with
    | some off => pure (off, st)
    | none => push_stack st sz
  match sz, is_signed with
  | 1, false => do
      let imm ← parse_immediate st 255 imm_str
      let st := pushIns st (.store8 .r10 offset (wrap8 imm))
      pure (offset, QualifiedType.int 1 false, st)
  | 1, true => do
      let imm ← parse_immediate st 127 imm_str
      let st := pushIns st (.store8 .r10 offset imm)
      pure (offset, QualifiedType.int 1 true, st)
  | 2, false => do
      let imm ← parse_immediate st 65535 imm_str
      let st := pushIns st (.store16 .r10 offset (wrap16 imm))
      pure (offset, QualifiedType.int 2 false, st)
  | 2, true => do
      let imm ← parse_immediate st 32767 imm_str
      let st := pushIns st (.store16 .r10 offset imm)
      pure (offset, QualifiedType.int 2 true, st)
  | 4, false => do
      let imm ← parse_immediate st 4294967295 imm_str
      let st := pushIns st (.store32 .r10 offset (wrap32 imm))
      pure (offset, QualifiedType.int 4 false, st)
  | 4, true => do
      let imm ← parse_immediate st 2147483647 imm_str
      let st := pushIns st (.store32 .r10 offset imm)
      pure (offset, QualifiedType.int 4 true, st)
  | 8, false => do
      let imm ← parse_immediate st 18446744073709551615 imm_str
      let st := pushIns st (.store64 .r10 offset (wrap64 imm))
      pure (offset, QualifiedType.int 8 false, st)
  | 8, true => do
      let imm ← parse_immediate st 9223372036854775807 imm_str
      let st := pushIns st (.store64 .r10 offset imm)
      pure (offset, QualifiedType.int 8 true, st)
  | size, _ => do
      let imm ← parse_immediate st 127 imm_str
      let st := emit_init_stack st offset imm size
      pure (offset, cast_type, st)

/-- Model of `Compiler::emit_push_register`. -/
def emit_push_register (st : CState) (reg : Reg) (offset : Option Int) :
    Except String (Int × CState) := do
  let (offset, st) ←
    match offset with
    | some off => pure (off, st)
    | none => push_stack st 8
  pure (offset, pushIns st (.storex64 .r10 offset reg))

/-- Model of `Compiler::emit_deref_register_to_stack`:
`probe_read_kernel(stack + offset, cast_type.get_size(), reg)`. -/
def emit_deref_register_to_stack (st : CState) (reg : Reg)
    (cast_type : QualifiedType) (offset : Int) : CState :=
  pushInsList st
    [ .movx64 .r1 .r10,
      .add64 .r1 offset,
      .mov64 .r2 (wrap32 cast_type.get_size),
      .movx64 .r3 reg,
      .call probeReadKernelId ]

/-! ## Dereference-chain resolution -/

/-- Model of `Compiler::get_member_access`.  Returns the byte offset and the member's
resolved type. -/
def get_member_access (ctx : Ctx) (st : CState) (qtype : QualifiedType)
    (name : String) : Except String (Nat × QualifiedType) :=
  match qtype.base_type with
  | .structTy _ members =>
      match members.find? (fun p => p.1 = name) with
      | none => .error (msgMemberMissing st.exprNum name)
      | some (_, boff, tid) =>
          if boff % 8 ≠ 0 then .error (msgBitfield st.exprNum)
          else do
            let member_type ← resolve_type_by_id ctx st tid
            pure (boff / 8, member_type)
  | _ => .error (msgNonStructMember st.exprNum)

/-- Model of `Compiler::get_array_index`.  The index literal is parsed as a `u32`;
the byte offset `element_type.get_size() * index` is `u32` arithmetic. -/
def get_array_index (ctx : Ctx) (st : CState) (qtype : QualifiedType)
    (index : String) : Except String (Nat × QualifiedType) := do
  let idx ← parse_immediate st 4294967295 index
  match qtype.base_type with
  | .array elementTypeId num_elements =>
      if idx > num_elements then
        .error (msgArrayOutOfBounds st.exprNum idx num_elements)
      else do
        let element_type ← resolve_type_by_id ctx st elementTypeId
        pure ((element_type.get_size * idx) % 4294967296, element_type)
  | _ => .error (msgNonStructMember st.exprNum)

/-- The loop body of `Compiler::get_assign_offset`: walk the dereference
chain accumulating a `u32` byte offset and narrowing the current type. -/
def get_assign_offset_walk (ctx : Ctx) (st : CState) (offset : Nat)
    (cur_type : QualifiedType) (derefs : List DeReference) :
    Except String (Nat × QualifiedType) :=
  match derefs with
  | [] => pure (offset, cur_type)
  | d :: rest =>
      if cur_type.is_pointer then .error (msgIndirectAssign st.exprNum)
      else do
        let (off, ty) ←
          match d with
          | .memberAccess ma => get_member_access ctx st cur_type ma.name
          | .arrayIndex ai => get_array_index ctx st cur_type ai.element
        get_assign_offset_walk ctx st ((offset + off) % 4294967296) ty rest

/-- Model of `Compiler::get_assign_offset`.  The accumulated `u32` offset is converted
to `i16` with `try_into` (an error when it exceeds `i16::MAX`). -/
def get_assign_offset (ctx : Ctx) (st : CState) (qtype : QualifiedType)
    (derefs : List DeReference) : Except String (Int × QualifiedType) := do
  let (offset, cur_type) ← get_assign_offset_walk ctx st 0 qtype derefs
  if offset ≤ 32767 then pure ((offset : Int), cur_type)
  else .error msgOffsetTooLarge

/-- Model of `Compiler::emit_deref_member_access`. -/
def emit_deref_member_access (ctx : Ctx) (st : CState) (reg : Reg)
    (qtype : QualifiedType) (ma : MemberAccess) :
    Except String (QualifiedType × CState) := do
  let (offset, member_type) ← get_member_access ctx st qtype ma.name
  if offset > 0 then
    pure (member_type, pushIns st (.add64 reg (wrap32 offset)))
  else pure (member_type, st)

/-- Model of `Compiler::emit_deref_array_index`. -/
def emit_deref_array_index (ctx : Ctx) (st : CState) (reg : Reg)
    (qtype : QualifiedType) (ai : ArrayIndex) :
    Except String (QualifiedType × CState) := do
  let (offset, element_type) ← get_array_index ctx st qtype ai.element
  if offset > 0 then
    pure (element_type, pushIns st (.add64 reg (wrap32 offset)))
  else pure (element_type, st)

/-- Model of `Compiler::emit_apply_derefs_to_reg`. -/
def emit_apply_derefs_to_reg (ctx : Ctx) (st : CState) (reg : Reg)
    (var_type : QualifiedType) (derefs : List DeReference) :
    Except String (QualifiedType × CState) :=
  match derefs with
  | [] => pure (var_type, st)
  | d :: rest => do
      let st := if var_type.is_pointer then pushIns st (.loadx64 reg reg 0)
                else st
      let (next_type, st) ←
        match d with
        | .memberAccess ma => emit_deref_member_access ctx st reg var_type ma
        | .arrayIndex ai => emit_deref_array_index ctx st reg var_type ai
      emit_apply_derefs_to_reg ctx st reg next_type rest

/-- Model of `Compiler::emit_set_register_to_lvalue_addr`. -/
def emit_set_register_to_lvalue_addr (ctx : Ctx) (st : CState) (reg : Reg)
    (lval : LValue) : Except String (QualifiedType × CState) := do
  let info ← get_variable_by_name st lval.name
  match info.location with
  | .specialImmediate _ => .error (msgAssignSpecial st.exprNum)
  | .stack o =>
      let st := pushInsList st [.movx64 reg .r10, .add64 reg o]
      emit_apply_derefs_to_reg ctx st reg info.var_type lval.derefs

/-- Model of `Compiler::emit_set_register_from_lvalue`. -/
def emit_set_register_from_lvalue (ctx : Ctx) (st : CState) (reg : Reg)
    (lval : LValue) (load_type : Option MemoryOpLoadType) :
    Except String CState := do
  let info ← get_variable_by_name st lval.name
  match info.location with
  | .specialImmediate v =>
      if lval.derefs ≠ [] then .error (msgDerefSpecial st.exprNum)
      else
        pure (pushIns st (.loadtype reg v (load_type.getD .void)))
  | .stack _ => do
      let (var_type, st) ← emit_set_register_to_lvalue_addr ctx st reg lval
      if lval.refMark = some .referenceMark then pure st
      else do
        let st ←
          match var_type.get_size with
          | 1 => pure (pushIns st (.loadx8 reg reg 0))
          | 2 => pure (pushIns st (.loadx16 reg reg 0))
          | 4 => pure (pushIns st (.loadx32 reg reg 0))
          | 8 => pure (pushIns st (.loadx64 reg reg 0))
          | _ => .error (msgVarTooLarge st.exprNum)
        if lval.refMark = some .dereferenceMark then
          if ¬ var_type.is_pointer then .error (msgRefNonPointer st.exprNum)
          else pure (pushIns st (.loadx64 reg reg 0))
        else pure st

/-! ## Call lowering (`emit_set_register_from_rvalue` and `emit_call` are
mutually recursive through call arguments) -/

/-- The fixed argument register for call-argument index `i` (the `match i`
arms of `emit_call`; `none` is the more-than-5-arguments bail arm). -/
def argRegister (i : Nat) : Option Reg :=
  match i with
  | 0 => some .r1
  | 1 => some .r2
  | 2 => some .r3
  | 3 => some .r4
  | 4 => some .r5
  | _ => none

mutual

/-- Model of `Compiler::emit_set_register_from_rvalue`. -/
def emit_set_register_from_rvalue (ctx : Ctx) (st : CState) (reg : Reg)
    (rval : RValue) (load_type : Option MemoryOpLoadType) :
    Except String CState :=
  match rval with
  | .immediate imm_str =>
      match load_type with
      | some lt => do
          let imm ← parse_immediate st 9223372036854775807 imm_str
          pure (pushIns st (.loadtype reg imm lt))
      | none => do
          let imm ← parse_immediate st 2147483647 imm_str
          pure (pushIns st (.mov64 reg imm))
  | .lvalue lval => emit_set_register_from_lvalue ctx st reg lval load_type
  | .functionCall c => do
      let st ← emit_call ctx st c
      if reg = .r0 then pure st
      else pure (pushIns st (.movx64 reg .r0))
termination_by sizeOf rval

/-- Model of `Compiler::emit_call`. -/
def emit_call (ctx : Ctx) (st : CState) (c : FunctionCall) :
    Except String CState :=
  match c with
  | .mk name args =>
      match ctx.helpers.from_string name with
      | none => .error (msgUnknownHelper st.exprNum name)
      | some (id, types) => do
          let st ← emit_call_args ctx st args 0 types
          pure (pushIns st (.call id))
termination_by sizeOf c

/-- The argument loop of `Compiler::emit_call` (`for (i, arg) in
call.args.iter().enumerate()`). -/
def emit_call_args (ctx : Ctx) (st : CState) (args : List RValue) (i : Nat)
    (types : List MemoryOpLoadType) : Except String CState :=
  match args with
  | [] => pure st
  | arg :: rest =>
      match argRegister i with
      | none => .error (msgTooManyArgs st.exprNum)
      | some reg => do
          let t ←
            match types[i]? with
            | some t => pure t
            | none => .error msgArgTypeOutOfRange
          let st ← emit_set_register_from_rvalue ctx st reg arg (some t)
          emit_call_args ctx st rest (i + 1) types
termination_by sizeOf args

end

/-! ## Statement lowering -/

/-- Model of `Compiler::emit_push_lvalue`. -/
def emit_push_lvalue (ctx : Ctx) (st : CState) (lval : LValue)
    (cast_type : QualifiedType) (use_offset : Option Int) :
    Except String (Int × QualifiedType × CState) := do
  let (var_type, st) ← emit_set_register_to_lvalue_addr ctx st .r6 lval
  let real_type :=
    match cast_type.base_type with
    | .void => var_type
    | _ => cast_type
  if real_type.get_size ≠ var_type.get_size then
    .error (msgSizeMismatch st.exprNum)
  else do
    let (offset, st) ←
      match use_offset with
      | some off => pure (off, st)
      | none => push_stack st real_type.get_size
    match lval.refMark with
    | none =>
        pure (offset, real_type,
          emit_deref_register_to_stack st .r6 real_type offset)
    | some .dereferenceMark => .error (msgDerefUnimplemented st.exprNum)
    | some .referenceMark =>
        pure (offset, { real_type with num_refs := real_type.num_refs + 1 },
          pushIns st (.storex64 .r10 offset .r6))

/-- Model of `Compiler::emit_push_rvalue`. -/
def emit_push_rvalue (ctx : Ctx) (st : CState) (rval : RValue)
    (cast_type : QualifiedType) (use_offset : Option Int) :
    Except String (Int × QualifiedType × CState) :=
  match rval with
  | .immediate imm_str => emit_push_immediate st imm_str cast_type use_offset
  | .lvalue lval => emit_push_lvalue ctx st lval cast_type use_offset
  | .functionCall c =>
      match cast_type.base_type with
      | .integer isz _ =>
          if isz ≠ 8 then .error (msgCallReturnNon64 st.exprNum)
          else do
            let st ← emit_call ctx st c
            let (offset, st) ← emit_push_register st .r0 use_offset
            pure (offset, cast_type, st)
      | _ => .error (msgCallReturnNonInteger st.exprNum)

/-- Model of `Compiler::emit_assign`. -/
def emit_assign (ctx : Ctx) (st : CState) (assign : Assignment) :
    Except String CState :=
  match lookupVar st.vars assign.left.name with
  | some info =>
      if assign.type_name.isSome then
        .error (msgRetype st.exprNum assign.left.name)
      else
        match info.location with
        | .stack off => do
            let (rel_off, offset_type) ←
              get_assign_offset ctx st info.var_type assign.left.derefs
            let (_, _, st) ←
              emit_push_rvalue ctx st assign.right offset_type
                (some (off + rel_off))
            pure st
        | .specialImmediate _ =>
            .error (msgCannotReassign st.exprNum assign.left.name)
  | none => do
      let cast_type ←
        match assign.type_name with
        | some type_name => resolve_type_by_decl ctx st type_name
        | none => pure qtDefault
      let (offset, new_type, st) ←
        emit_push_rvalue ctx st assign.right cast_type none
      pure { st with
        vars := insertVar st.vars assign.left.name
          ⟨new_type, .stack offset⟩ }

/-- Model of `Compiler::emit_return`. -/
def emit_return (ctx : Ctx) (st : CState) (ret : Return) :
    Except String CState :=
  match ret.value with
  | none => pure (pushInsList st [.mov64 .r0 0, .exit])
  | some value => do
      let st ← emit_set_register_from_rvalue ctx st .r0 value none
      pure (pushIns st .exit)

/-- The argument loop of `Compiler::emit_prologue` (`for (i, arg) in
ast.input.args.iter().enumerate()`).  `Register::from_num((i + 1) as u8)` is
unreachable as `none` behind the prologue's arity check; its
`.expect("too many args")` panic is modelled as an error. -/
def emit_prologue_args (ctx : Ctx) (st : CState) (args : List TypedArgument)
    (i : Nat) : Except String CState :=
  match args with
  | [] => pure st
  | arg :: rest => do
      let register ←
        match regFromNum (i + 1) with
        | some r => pure r
        | none => .error msgTooManyPrologueArgs
      let arg_type ← resolve_type_by_decl ctx st arg.type_name
      let (offset, st) ← emit_push_register st register none
      let st := { st with
        vars := insertVar st.vars arg.name ⟨arg_type, .stack offset⟩ }
      emit_prologue_args ctx st rest (i + 1)

/-- Model of `Compiler::emit_prologue`. -/
def emit_prologue (ctx : Ctx) (st : CState) (ast : ScriptDef) :
    Except String CState :=
  if ast.input.args.length > 5 then .error (msgTooManyArgs st.exprNum)
  else emit_prologue_args ctx st ast.input.args 0

/-- One iteration of the statement loop of `Compiler::emit_body`. -/
def emit_expression (ctx : Ctx) (st : CState) (e : Expression) :
    Except String CState :=
  match e with
  | .assignment a => emit_assign ctx st a
  | .functionCall c => emit_call ctx st c
  | .ret r => emit_return ctx st r

/-- The statement loop of `Compiler::emit_body` (`self.expr_num += 1` before
each statement is lowered). -/
def emit_exprs (ctx : Ctx) (st : CState) (exprs : List Expression) :
    Except String CState :=
  match exprs with
  | [] => pure st
  | e :: rest => do
      let st := { st with exprNum := st.exprNum + 1 }
      let st ← emit_expression ctx st e
      emit_exprs ctx st rest

/-- Model of `Compiler::emit_body`: lower every statement, then append an implicit
value-less return unless the final statement is a return. -/
def emit_body (ctx : Ctx) (st : CState) (ast : ScriptDef) :
    Except String CState := do
  let st ← emit_exprs ctx st ast.exprs
  match ast.exprs.getLast? with
  | some (.ret _) => pure st
  | _ => emit_return ctx st ⟨none⟩

/-- Modelled from the spec: `optimize` lives in `src/optimizer.rs`, which is
not among the provided sources.  Spec section 4.9 constrains it only
behaviorally: a pure transformation applied exactly once whose output is
behaviorally equivalent to and never longer than its input.  It is modelled
as the identity transformation, the least-committal function satisfying
those constraints; statements about post-optimizer instruction sequences
hold up to this modelling. -/
def optimize (instructions : List Instruction) : List Instruction :=
  instructions

/-- Model of `Compiler::compile`, starting from the parsed AST (the parser is the
external peginator engine; its output for the fixed grammar is the
`ScriptDef` value taken here as input). -/
def compile (ctx : Ctx) (st : CState) (ast : ScriptDef) :
    Except String CState := do
  let st ← emit_prologue ctx st ast
  let st ← emit_body ctx st ast
  pure { st with instructions := optimize st.instructions }

/-! ## Basic reduction lemmas -/

@[simp] theorem except_bind_ok {α β : Type} (a : α) (f : α → Except String β) :
    (Except.ok a >>= f : Except String β) = f a := rfl

@[simp] theorem except_bind_err {α β : Type} (e : String)
    (f : α → Except String β) :
    (Except.error e >>= f : Except String β) = Except.error e := rfl

@[simp] theorem except_pure_eq {α : Type} (a : α) :
    (pure a : Except String α) = Except.ok a := rfl

@[simp] theorem except_ok_inj {α : Type} (a b : α) :
    (Except.ok a = (Except.ok b : Except String α)) ↔ a = b := by
  constructor
  · intro h; injection h
  · intro h; rw [h]

@[simp] theorem except_ok_ne_err {α : Type} (a : α) (e : String) :
    (Except.ok a = (Except.error e : Except String α)) ↔ False :=
  ⟨fun h => by injection h, False.elim⟩

@[simp] theorem except_err_ne_ok {α : Type} (a : α) (e : String) :
    (Except.error e = (Except.ok a : Except String α)) ↔ False :=
  ⟨fun h => by injection h, False.elim⟩

instance {ε α : Type} [DecidableEq ε] [DecidableEq α] :
    DecidableEq (Except ε α) := fun x y =>
  match x, y with
  | .ok a, .ok b =>
      if h : a = b then .isTrue (by rw [h])
      else .isFalse (fun hh => by injection hh; exact h (by assumption))
  | .error e, .error f =>
      if h : e = f then .isTrue (by rw [h])
      else .isFalse (fun hh => by injection hh; exact h (by assumption))
  | .ok _, .error _ => .isFalse (fun hh => by injection hh)
  | .error _, .ok _ => .isFalse (fun hh => by injection hh)

@[simp] theorem pushIns_stack (st : CState) (i : Instruction) :
    (pushIns st i).stack = st.stack := rfl

@[simp] theorem pushIns_exprNum (st : CState) (i : Instruction) :
    (pushIns st i).exprNum = st.exprNum := rfl

@[simp] theorem pushIns_vars (st : CState) (i : Instruction) :
    (pushIns st i).vars = st.vars := rfl

@[simp] theorem pushInsList_stack (st : CState) (l : List Instruction) :
    (pushInsList st l).stack = st.stack := rfl

@[simp] theorem pushInsList_exprNum (st : CState) (l : List Instruction) :
    (pushInsList st l).exprNum = st.exprNum := rfl

@[simp] theorem pushInsList_vars (st : CState) (l : List Instruction) :
    (pushInsList st l).vars = st.vars := rfl

@[simp] theorem emit_init_stack_stack (st : CState) (o v : Int) (sz : Nat) :
    (emit_init_stack st o v sz).stack = st.stack := rfl

@[simp] theorem emit_init_stack_exprNum (st : CState) (o v : Int) (sz : Nat) :
    (emit_init_stack st o v sz).exprNum = st.exprNum := rfl

@[simp] theorem emit_init_stack_vars (st : CState) (o v : Int) (sz : Nat) :
    (emit_init_stack st o v sz).vars = st.vars := rfl

@[simp] theorem emit_deref_register_to_stack_stack (st : CState) (r : Reg)
    (t : QualifiedType) (o : Int) :
    (emit_deref_register_to_stack st r t o).stack = st.stack := rfl

@[simp] theorem emit_deref_register_to_stack_exprNum (st : CState) (r : Reg)
    (t : QualifiedType) (o : Int) :
    (emit_deref_register_to_stack st r t o).exprNum = st.exprNum := rfl

@[simp] theorem emit_deref_register_to_stack_vars (st : CState) (r : Reg)
    (t : QualifiedType) (o : Int) :
    (emit_deref_register_to_stack st r t o).vars = st.vars := rfl

theorem wrap16_small {x : Int} (h0 : 0 ≤ x) (h1 : x ≤ 32767) :
    wrap16 x = x := by
  unfold wrap16
  have : (x + 32768).emod 65536 = x + 32768 :=
    Int.emod_eq_of_lt (by omega) (by omega)
  omega

theorem wrap16_id {x : Int} (h0 : -32768 ≤ x) (h1 : x ≤ 32767) :
    wrap16 x = x := by
  unfold wrap16
  have : (x + 32768).emod 65536 = x + 32768 :=
    Int.emod_eq_of_lt (by omega) (by omega)
  omega

/-! ## Preservation: the register-targeting emitters never touch the stack
counter, the diagnostic line counter, or the symbol table. -/

/-- State components untouched by the register-targeting emitters. -/
def presv (st st' : CState) : Prop :=
  st'.stack = st.stack ∧ st'.exprNum = st.exprNum ∧ st'.vars = st.vars

theorem presv_refl (st : CState) : presv st st := ⟨rfl, rfl, rfl⟩

theorem presv_trans {a b c : CState} (h1 : presv a b) (h2 : presv b c) :
    presv a c := by
  obtain ⟨x1, y1, z1⟩ := h1; obtain ⟨x2, y2, z2⟩ := h2
  exact ⟨x2.trans x1, y2.trans y1, z2.trans z1⟩

theorem presv_pushIns (st : CState) (i : Instruction) : presv st (pushIns st i) :=
  ⟨rfl, rfl, rfl⟩

theorem emit_deref_member_access_presv {ctx : Ctx} {st : CState} {reg : Reg}
    {qt : QualifiedType} {ma : MemberAccess} {t' : QualifiedType} {st' : CState}
    (h : emit_deref_member_access ctx st reg qt ma = .ok (t', st')) :
    presv st st' := by
  unfold emit_deref_member_access at h
  cases hm : get_member_access ctx st qt ma.name with
  | error e => rw [hm] at h; simp at h
  | ok p =>
      rw [hm] at h
      obtain ⟨off, mt⟩ := p
      by_cases ho : 0 < off <;> simp [ho] at h <;> simp [← h.2, presv]

theorem emit_deref_array_index_presv {ctx : Ctx} {st : CState} {reg : Reg}
    {qt : QualifiedType} {ai : ArrayIndex} {t' : QualifiedType} {st' : CState}
    (h : emit_deref_array_index ctx st reg qt ai = .ok (t', st')) :
    presv st st' := by
  unfold emit_deref_array_index at h
  cases hm : get_array_index ctx st qt ai.element with
  | error e => rw [hm] at h; simp at h
  | ok p =>
      rw [hm] at h
      obtain ⟨off, mt⟩ := p
      by_cases ho : 0 < off <;> simp [ho] at h <;> simp [← h.2, presv]

theorem emit_apply_derefs_presv {ctx : Ctx} {reg : Reg} :
    ∀ {ds : List DeReference} {st : CState} {qt t' : QualifiedType}
      {st' : CState},
      emit_apply_derefs_to_reg ctx st reg qt ds = .ok (t', st') →
      presv st st' := by
  intro ds
  induction ds with
  | nil =>
      intro st qt t' st' h
      unfold emit_apply_derefs_to_reg at h
      simp at h
      simp [h, presv]
  | cons d rest ih =>
      intro st qt t' st' h
      unfold emit_apply_derefs_to_reg at h
      have hp1 : presv st
          (if qt.is_pointer then pushIns st (.loadx64 reg reg 0) else st) := by
        split <;> simp [presv]
      cases d with
      | memberAccess ma =>
          simp only [] at h
          cases hm : emit_deref_member_access ctx
              (if qt.is_pointer then pushIns st (.loadx64 reg reg 0) else st)
              reg qt ma with
          | error e => rw [hm] at h; simp at h
          | ok p =>
              obtain ⟨nt, st2⟩ := p
              rw [hm] at h; simp at h
              exact presv_trans hp1
                (presv_trans (emit_deref_member_access_presv hm) (ih h))
      | arrayIndex ai =>
          simp only [] at h
          cases hm : emit_deref_array_index ctx
              (if qt.is_pointer then pushIns st (.loadx64 reg reg 0) else st)
              reg qt ai with
          | error e => rw [hm] at h; simp at h
          | ok p =>
              obtain ⟨nt, st2⟩ := p
              rw [hm] at h; simp at h
              exact presv_trans hp1
                (presv_trans (emit_deref_array_index_presv hm) (ih h))

theorem emit_set_register_to_lvalue_addr_presv {ctx : Ctx} {st : CState}
    {reg : Reg} {lval : LValue} {t' : QualifiedType} {st' : CState}
    (h : emit_set_register_to_lvalue_addr ctx st reg lval = .ok (t', st')) :
    presv st st' := by
  unfold emit_set_register_to_lvalue_addr at h
  cases hv : get_variable_by_name st lval.name with
  | error e => rw [hv] at h; simp at h
  | ok info =>
      rw [hv] at h
      simp only [except_bind_ok] at h
      cases hl : info.location with
      | specialImmediate v => rw [hl] at h; simp at h
      | stack o =>
          rw [hl] at h
          simp at h
          have h0 : presv st
              (pushInsList st [.movx64 reg .r10, .add64 reg o]) :=
            ⟨rfl, rfl, rfl⟩
          exact presv_trans h0 (emit_apply_derefs_presv h)

theorem emit_set_register_from_lvalue_presv {ctx : Ctx} {st : CState}
    {reg : Reg} {lval : LValue} {lt : Option MemoryOpLoadType} {st' : CState}
    (h : emit_set_register_from_lvalue ctx st reg lval lt = .ok st') :
    presv st st' := by
  unfold emit_set_register_from_lvalue at h
  cases hv : get_variable_by_name st lval.name with
  | error e => rw [hv] at h; simp at h
  | ok info =>
      rw [hv] at h
      simp only [except_bind_ok] at h
      cases hl : info.location with
      | specialImmediate v =>
          rw [hl] at h
          by_cases hd : lval.derefs ≠ [] <;> simp [hd] at h <;>
            simp [← h, presv]
      | stack o =>
          rw [hl] at h
          simp only [] at h
          cases ha : emit_set_register_to_lvalue_addr ctx st reg lval with
          | error e => rw [ha] at h; simp at h
          | ok p =>
              obtain ⟨vt, st1⟩ := p
              rw [ha] at h
              simp only [except_bind_ok] at h
              have hp1 := emit_set_register_to_lvalue_addr_presv ha
              by_cases hr : lval.refMark = some RefKind.referenceMark
              · simp [hr] at h; rw [← h]; exact hp1
              · simp only [if_neg hr] at h
                split at h <;> try simp at h
                all_goals
                  by_cases hdm : lval.refMark = some RefKind.dereferenceMark <;>
                    simp only [if_pos, if_neg, hdm, ite_true, ite_false] at h
                all_goals
                  first
                    | (by_cases hptr : vt.is_pointer = false <;>
                        simp [hptr] at h <;>
                        (first
                          | (rw [← h]; exact presv_trans hp1 ⟨rfl, rfl, rfl⟩)
                          | skip))
                    | (rw [← h]; exact presv_trans hp1 ⟨rfl, rfl, rfl⟩)

theorem emit_set_register_from_rvalue_presv (ctx : Ctx) :
    ∀ (st : CState) (reg : Reg) (rval : RValue)
      (lt : Option MemoryOpLoadType) (st' : CState),
      emit_set_register_from_rvalue ctx st reg rval lt = .ok st' →
      presv st st' := by
  intro st0 reg0 rv0 lt0
  refine emit_set_register_from_rvalue.induct ctx
    (fun st reg rv lt => ∀ st',
      emit_set_register_from_rvalue ctx st reg rv lt = .ok st' → presv st st')
    (fun st c => ∀ st', emit_call ctx st c = .ok st' → presv st st')
    (fun st args i types => ∀ st',
      emit_call_args ctx st args i types = .ok st' → presv st st')
    ?_ ?_ ?_ ?_ ?_ ?_ ?_ ?_ ?_ ?_ st0 reg0 rv0 lt0
  · intro st reg s l st' h
    unfold emit_set_register_from_rvalue at h
    cases hp : parse_immediate st 9223372036854775807 s with
    | error e => rw [hp] at h; simp at h
    | ok imm => rw [hp] at h; simp at h; simp [← h, presv]
  · intro st reg s st' h
    unfold emit_set_register_from_rvalue at h
    cases hp : parse_immediate st 2147483647 s with
    | error e => rw [hp] at h; simp at h
    | ok imm => rw [hp] at h; simp at h; simp [← h, presv]
  · intro st reg l lval st' h
    unfold emit_set_register_from_rvalue at h
    exact emit_set_register_from_lvalue_presv h
  · intro st reg l c ih st' h
    unfold emit_set_register_from_rvalue at h
    cases hc : emit_call ctx st c with
    | error e => rw [hc] at h; simp at h
    | ok st1 =>
        rw [hc] at h
        simp only [except_bind_ok] at h
        by_cases hr : reg = Reg.r0 <;> simp [hr] at h <;>
          rw [← h] <;> exact presv_trans (ih st1 hc) ⟨rfl, rfl, rfl⟩
  · intro st n args hn st' h
    unfold emit_call at h
    rw [hn] at h
    simp at h
  · intro st n args id types hn ih st' h
    unfold emit_call at h
    rw [hn] at h
    simp only [] at h
    cases ha : emit_call_args ctx st args 0 types with
    | error e => rw [ha] at h; simp at h
    | ok st1 =>
        rw [ha] at h
        simp at h
        rw [← h]
        exact presv_trans (ih st1 ha) ⟨rfl, rfl, rfl⟩
  · intro st i types st' h
    unfold emit_call_args at h
    simp at h
    simp [h, presv]
  · intro st i types arg rest hreg st' h
    unfold emit_call_args at h
    rw [hreg] at h
    simp at h
  · intro st i types arg rest reg hreg l hl ih1 ih2 st' h
    unfold emit_call_args at h
    rw [hreg, hl] at h
    simp only [except_pure_eq, except_bind_ok] at h
    cases hs : emit_set_register_from_rvalue ctx st reg arg (some l) with
    | error e => rw [hs] at h; simp at h
    | ok st1 =>
        rw [hs] at h
        simp only [except_bind_ok] at h
        exact presv_trans (ih1 l st1 hs) (ih2 st1 st' h)
  · intro st i types arg rest reg hreg hl ih1 ih2 st' h
    unfold emit_call_args at h
    rw [hreg, hl] at h
    simp at h

theorem emit_call_args_presv {ctx : Ctx} :
    ∀ {args : List RValue} {st : CState} {i : Nat}
      {types : List MemoryOpLoadType} {st' : CState},
      emit_call_args ctx st args i types = .ok st' → presv st st' := by
  intro args
  induction args with
  | nil =>
      intro st i types st' h
      unfold emit_call_args at h
      simp at h
      simp [h, presv]
  | cons arg rest ih =>
      intro st i types st' h
      unfold emit_call_args at h
      cases hreg : argRegister i with
      | none => rw [hreg] at h; simp at h
      | some reg =>
          rw [hreg] at h
          cases hl : types[i]? with
          | none => rw [hl] at h; simp at h
          | some l =>
              rw [hl] at h
              simp only [except_pure_eq, except_bind_ok] at h
              cases hs : emit_set_register_from_rvalue ctx st reg arg (some l) with
              | error e => rw [hs] at h; simp at h
              | ok st1 =>
                  rw [hs] at h
                  simp only [except_bind_ok] at h
                  exact presv_trans
                    (emit_set_register_from_rvalue_presv ctx st reg arg
                      (some l) st1 hs) (ih h)

theorem emit_call_presv {ctx : Ctx} {st : CState} {c : FunctionCall}
    {st' : CState} (h : emit_call ctx st c = .ok st') : presv st st' := by
  cases c with
  | mk n args =>
      unfold emit_call at h
      cases hn : ctx.helpers.from_string n with
      | none => rw [hn] at h; simp at h
      | some p =>
          obtain ⟨id, types⟩ := p
          rw [hn] at h
          simp only [] at h
          cases ha : emit_call_args ctx st args 0 types with
          | error e => rw [ha] at h; simp at h
          | ok st1 =>
              rw [ha] at h
              simp at h
              rw [← h]
              exact presv_trans (emit_call_args_presv ha) ⟨rfl, rfl, rfl⟩

/-! ## The stack counter stays within the 512-byte budget -/

@[simp] theorem except_bind_ok_iff {α β : Type} {m : Except String α}
    {f : α → Except String β} {b : β} :
    (m >>= f) = .ok b ↔ ∃ a, m = .ok a ∧ f a = .ok b := by
  cases m <;> simp

/-- Either the emitter left the stack counter unchanged or the counter is
within budget (every committing path goes through `push_stack`). -/
def stackInv (st st' : CState) : Prop :=
  st'.stack = st.stack ∨ st'.stack ≤ 512

theorem stackInv_refl (st : CState) : stackInv st st := Or.inl rfl

theorem stackInv_trans {a b c : CState} (h1 : stackInv a b)
    (h2 : stackInv b c) : stackInv a c := by
  rcases h2 with h2 | h2
  · rcases h1 with h1 | h1
    · exact Or.inl (h2.trans h1)
    · exact Or.inr (h2 ▸ h1)
  · exact Or.inr h2

theorem presv_stackInv {st st' : CState} (h : presv st st') : stackInv st st' :=
  Or.inl h.1

/-- What the stack-pushing emitters preserve: the stack stays within budget
or unchanged, and the line counter and symbol table are untouched. -/
def pushInv (st st' : CState) : Prop :=
  stackInv st st' ∧ st'.exprNum = st.exprNum ∧ st'.vars = st.vars

theorem pushInv_refl (st : CState) : pushInv st st := ⟨Or.inl rfl, rfl, rfl⟩

theorem pushInv_trans {a b c : CState} (h1 : pushInv a b) (h2 : pushInv b c) :
    pushInv a c :=
  ⟨stackInv_trans h1.1 h2.1, h2.2.1.trans h1.2.1, h2.2.2.trans h1.2.2⟩

theorem presv_pushInv {st st' : CState} (h : presv st st') : pushInv st st' :=
  ⟨Or.inl h.1, h.2.1, h.2.2⟩

theorem push_stack_ok {st : CState} {sz : Nat} {off : Int} {st' : CState}
    (h : push_stack st sz = .ok (off, st')) :
    st'.stack = (st.stack + sz) % 4294967296 ∧ st'.stack ≤ 512 ∧
    st'.exprNum = st.exprNum ∧ st'.vars = st.vars ∧
    st'.instructions = st.instructions ∧ off = -(st'.stack : Int) := by
  unfold push_stack at h
  by_cases hc : (st.stack + sz) % 4294967296 > 512
  · simp [hc] at h
  · simp [hc] at h
    obtain ⟨h1, h2⟩ := h
    subst h2
    have hle : (st.stack + sz) % 4294967296 ≤ 512 := by omega
    refine ⟨rfl, hle, rfl, rfl, rfl, ?_⟩
    rw [← h1]
    unfold get_stack
    have hcast : ((({ st with stack := (st.stack + sz) % 4294967296 } :
        CState).stack : Int)) = (((st.stack + sz) % 4294967296 : Nat) : Int) :=
      rfl
    rw [hcast, wrap16_small (by exact_mod_cast Nat.zero_le _)
      (by exact_mod_cast hle.trans (by norm_num))]

theorem push_stack_stackInv {st : CState} {sz : Nat} {off : Int} {st' : CState}
    (h : push_stack st sz = .ok (off, st')) : stackInv st st' :=
  Or.inr (push_stack_ok h).2.1

theorem push_stack_pushInv {st : CState} {sz : Nat} {off : Int} {st' : CState}
    (h : push_stack st sz = .ok (off, st')) : pushInv st st' :=
  ⟨Or.inr (push_stack_ok h).2.1, (push_stack_ok h).2.2.1,
    (push_stack_ok h).2.2.2.1⟩

theorem emit_push_immediate_inv {st : CState} {s : String}
    {ct : QualifiedType} {uo : Option Int} {off : Int} {nt : QualifiedType}
    {st' : CState} (h : emit_push_immediate st s ct uo = .ok (off, nt, st')) :
    pushInv st st' := by
  unfold emit_push_immediate at h
  rcases hbt : ct.base_type with _ | ⟨isz, sg⟩ | ⟨ssz, mem⟩ | ⟨et, ne⟩ <;>
    rw [hbt] at h <;> simp only [except_pure_eq, except_bind_ok] at h
  case array => simp at h
  case void =>
    cases uo with
    | some o =>
        simp only [except_pure_eq, except_bind_ok] at h
        simp [except_bind_ok_iff, Prod.mk.injEq] at h
        obtain ⟨imm, hp, h1, h2, h3⟩ := h
        rw [← h3]; exact ⟨Or.inl rfl, rfl, rfl⟩
    | none =>
        simp only [] at h
        cases hps : push_stack st 8 with
        | error e => rw [hps] at h; simp at h
        | ok p =>
            obtain ⟨o2, st2⟩ := p
            rw [hps] at h
            simp only [except_bind_ok] at h
            simp [except_bind_ok_iff, Prod.mk.injEq] at h
            obtain ⟨imm, hp, h1, h2, h3⟩ := h
            refine pushInv_trans (push_stack_pushInv hps) ?_
            rw [← h3]; exact ⟨Or.inl rfl, rfl, rfl⟩
  case integer =>
    cases uo with
    | some o =>
        simp only [except_pure_eq, except_bind_ok] at h
        split at h <;>
          (simp [except_bind_ok_iff, Prod.mk.injEq] at h;
           obtain ⟨imm, hp, h1, h2, h3⟩ := h;
           rw [← h3]; exact ⟨Or.inl rfl, rfl, rfl⟩)
    | none =>
        simp only [] at h
        cases hps : push_stack st isz with
        | error e => rw [hps] at h; simp at h
        | ok p =>
            obtain ⟨o2, st2⟩ := p
            rw [hps] at h
            simp only [except_bind_ok] at h
            split at h <;>
              (simp [except_bind_ok_iff, Prod.mk.injEq] at h;
               obtain ⟨imm, hp, h1, h2, h3⟩ := h;
               refine pushInv_trans (push_stack_pushInv hps) ?_;
               rw [← h3]; exact ⟨Or.inl rfl, rfl, rfl⟩)
  case structTy =>
    cases uo with
    | some o =>
        simp only [except_pure_eq, except_bind_ok] at h
        split at h <;>
          (simp [except_bind_ok_iff, Prod.mk.injEq] at h;
           obtain ⟨imm, hp, h1, h2, h3⟩ := h;
           rw [← h3]; exact ⟨Or.inl rfl, rfl, rfl⟩)
    | none =>
        simp only [] at h
        cases hps : push_stack st ssz with
        | error e => rw [hps] at h; simp at h
        | ok p =>
            obtain ⟨o2, st2⟩ := p
            rw [hps] at h
            simp only [except_bind_ok] at h
            split at h <;>
              (simp [except_bind_ok_iff, Prod.mk.injEq] at h;
               obtain ⟨imm, hp, h1, h2, h3⟩ := h;
               refine pushInv_trans (push_stack_pushInv hps) ?_;
               rw [← h3]; exact ⟨Or.inl rfl, rfl, rfl⟩)

theorem emit_push_register_inv {st : CState} {reg : Reg}
    {uo : Option Int} {off : Int} {st' : CState}
    (h : emit_push_register st reg uo = .ok (off, st')) : pushInv st st' := by
  unfold emit_push_register at h
  cases uo with
  | some o =>
      simp only [except_pure_eq, except_bind_ok] at h
      simp [Prod.mk.injEq] at h
      rw [← h.2]; exact ⟨Or.inl rfl, rfl, rfl⟩
  | none =>
      simp only [] at h
      cases hps : push_stack st 8 with
      | error e => rw [hps] at h; simp at h
      | ok p =>
          obtain ⟨o2, st2⟩ := p
          rw [hps] at h
          simp [Prod.mk.injEq] at h
          refine pushInv_trans (push_stack_pushInv hps) ?_
          rw [← h.2]; exact ⟨Or.inl rfl, rfl, rfl⟩

theorem emit_push_lvalue_inv {ctx : Ctx} {st : CState} {lval : LValue}
    {ct : QualifiedType} {uo : Option Int} {off : Int} {nt : QualifiedType}
    {st' : CState}
    (h : emit_push_lvalue ctx st lval ct uo = .ok (off, nt, st')) :
    pushInv st st' := by
  unfold emit_push_lvalue at h
  cases ha : emit_set_register_to_lvalue_addr ctx st .r6 lval with
  | error e => rw [ha] at h; simp at h
  | ok p =>
      obtain ⟨vt, st1⟩ := p
      rw [ha] at h
      simp only [except_bind_ok] at h
      have hp1 := presv_pushInv (emit_set_register_to_lvalue_addr_presv ha)
      refine pushInv_trans hp1 ?_
      split at h <;> try simp at h
      all_goals {
        rename_i hsz
        cases uo with
        | some o =>
            simp only [except_pure_eq, except_bind_ok] at h
            split at h <;> simp [Prod.mk.injEq] at h <;>
              rw [← h.2.2] <;> exact ⟨Or.inl rfl, rfl, rfl⟩
        | none =>
            simp only [] at h
            rcases hps : push_stack st1 _ with _ | ⟨o2, st2⟩
            · rw [hps] at h; simp at h
            · rw [hps] at h
              simp only [except_bind_ok] at h
              refine pushInv_trans (push_stack_pushInv hps) ?_
              split at h <;> simp [Prod.mk.injEq] at h <;>
                rw [← h.2.2] <;> exact ⟨Or.inl rfl, rfl, rfl⟩
      }

theorem emit_push_rvalue_inv {ctx : Ctx} {st : CState} {rval : RValue}
    {ct : QualifiedType} {uo : Option Int} {off : Int} {nt : QualifiedType}
    {st' : CState}
    (h : emit_push_rvalue ctx st rval ct uo = .ok (off, nt, st')) :
    pushInv st st' := by
  unfold emit_push_rvalue at h
  cases rval with
  | immediate s => exact emit_push_immediate_inv h
  | lvalue l => exact emit_push_lvalue_inv h
  | functionCall c =>
      rcases hbt : ct.base_type with _ | ⟨isz, sg⟩ | _ | _ <;>
        rw [hbt] at h <;> try simp at h
      split at h
      all_goals try simp at h
      obtain ⟨st1, hc, o2, st2, hpr, h1, h2, h3⟩ := h
      subst h3
      exact pushInv_trans (presv_pushInv (emit_call_presv hc))
        (pushInv_trans (emit_push_register_inv hpr) (pushInv_refl _))

theorem emit_assign_stackInv {ctx : Ctx} {st : CState} {a : Assignment}
    {st' : CState} (h : emit_assign ctx st a = .ok st') : stackInv st st' := by
  unfold emit_assign at h
  cases hv : lookupVar st.vars a.left.name with
  | some info =>
      rw [hv] at h
      cases htn : a.type_name with
      | some tn => rw [htn] at h; simp at h
      | none =>
          rw [htn] at h
          simp only [Option.isSome_none, Bool.false_eq_true, if_false] at h
          cases hl : info.location with
          | stack o =>
              rw [hl] at h
              simp only [except_bind_ok_iff] at h
              obtain ⟨⟨rel, oty⟩, hao, h⟩ := h
              obtain ⟨⟨o2, nt2, st2⟩, hpr, h⟩ := h
              simp at h
              refine stackInv_trans (emit_push_rvalue_inv hpr).1 ?_
              rw [← h]; exact Or.inl rfl
          | specialImmediate v => rw [hl] at h; simp at h
  | none =>
      rw [hv] at h
      cases htn : a.type_name with
      | some tn =>
          rw [htn] at h
          simp only [except_bind_ok_iff] at h
          obtain ⟨ct2, hct, h⟩ := h
          obtain ⟨⟨o2, nt2, st2⟩, hpr, h⟩ := h
          simp at h
          refine stackInv_trans (emit_push_rvalue_inv hpr).1 ?_
          rw [← h]; exact Or.inl rfl
      | none =>
          rw [htn] at h
          simp only [except_pure_eq, except_bind_ok, except_bind_ok_iff] at h
          obtain ⟨⟨o2, nt2, st2⟩, hpr, h⟩ := h
          simp at h
          refine stackInv_trans (emit_push_rvalue_inv hpr).1 ?_
          rw [← h]; exact Or.inl rfl

theorem emit_return_stackInv {ctx : Ctx} {st : CState} {r : Return}
    {st' : CState} (h : emit_return ctx st r = .ok st') : stackInv st st' := by
  unfold emit_return at h
  cases r with
  | mk v =>
      cases v with
      | none => simp at h; rw [← h]; exact Or.inl rfl
      | some value =>
          simp only [except_bind_ok_iff] at h
          obtain ⟨st1, hs, h⟩ := h
          simp at h
          refine stackInv_trans (presv_stackInv
            (emit_set_register_from_rvalue_presv ctx st .r0 value none st1 hs)) ?_
          rw [← h]; exact Or.inl rfl

theorem emit_expression_stackInv {ctx : Ctx} {st : CState} {e : Expression}
    {st' : CState} (h : emit_expression ctx st e = .ok st') : stackInv st st' := by
  unfold emit_expression at h
  cases e with
  | assignment a => exact emit_assign_stackInv h
  | functionCall c => exact presv_stackInv (emit_call_presv h)
  | ret r => exact emit_return_stackInv h

theorem emit_exprs_stackInv {ctx : Ctx} :
    ∀ {exprs : List Expression} {st st' : CState},
      emit_exprs ctx st exprs = .ok st' → stackInv st st' := by
  intro exprs
  induction exprs with
  | nil =>
      intro st st' h
      unfold emit_exprs at h
      simp at h
      rw [← h]; exact Or.inl rfl
  | cons e rest ih =>
      intro st st' h
      unfold emit_exprs at h
      simp only [except_bind_ok_iff] at h
      obtain ⟨st1, he, h⟩ := h
      have h1 : stackInv st { st with exprNum := st.exprNum + 1 } := Or.inl rfl
      exact stackInv_trans h1
        (stackInv_trans (emit_expression_stackInv he) (ih h))

theorem emit_prologue_args_stackInv {ctx : Ctx} :
    ∀ {args : List TypedArgument} {st : CState} {i : Nat} {st' : CState},
      emit_prologue_args ctx st args i = .ok st' → stackInv st st' := by
  intro args
  induction args with
  | nil =>
      intro st i st' h
      unfold emit_prologue_args at h
      simp at h
      rw [← h]; exact Or.inl rfl
  | cons a rest ih =>
      intro st i st' h
      unfold emit_prologue_args at h
      cases hreg : regFromNum (i + 1) with
      | none => rw [hreg] at h; simp at h
      | some r =>
          rw [hreg] at h
          simp only [except_pure_eq, except_bind_ok, except_bind_ok_iff] at h
          obtain ⟨aty, haty, h⟩ := h
          obtain ⟨⟨off, st1⟩, hpr, h⟩ := h
          refine stackInv_trans (emit_push_register_inv hpr).1 ?_
          have h1 : stackInv st1
              { st1 with vars := insertVar st1.vars a.name ⟨aty, .stack off⟩ } :=
            Or.inl rfl
          exact stackInv_trans h1 (ih h)

theorem emit_prologue_stackInv {ctx : Ctx} {st : CState} {ast : ScriptDef}
    {st' : CState} (h : emit_prologue ctx st ast = .ok st') : stackInv st st' := by
  unfold emit_prologue at h
  by_cases hn : ast.input.args.length > 5
  · simp [hn] at h
  · rw [if_neg hn] at h
    exact emit_prologue_args_stackInv h

theorem emit_body_stackInv {ctx : Ctx} {st : CState} {ast : ScriptDef}
    {st' : CState} (h : emit_body ctx st ast = .ok st') : stackInv st st' := by
  unfold emit_body at h
  simp only [except_bind_ok_iff] at h
  obtain ⟨st1, he, h⟩ := h
  refine stackInv_trans (emit_exprs_stackInv he) ?_
  split at h
  · simp at h; rw [← h]; exact Or.inl rfl
  · exact emit_return_stackInv h

theorem compile_stackInv {ctx : Ctx} {st : CState} {ast : ScriptDef}
    {st' : CState} (h : compile ctx st ast = .ok st') : stackInv st st' := by
  unfold compile at h
  simp only [except_bind_ok_iff] at h
  obtain ⟨st1, hp, h⟩ := h
  obtain ⟨st2, hb, h⟩ := h
  simp at h
  refine stackInv_trans (emit_prologue_stackInv hp) ?_
  refine stackInv_trans (emit_body_stackInv hb) ?_
  rw [← h]; exact Or.inl rfl


/-! ## Every successful compilation ends with a write to `r0` and `exit` -/

/-- Whether an instruction writes register `r` (a call instruction writes the
result register `r0`; stores and `exit` write no register). -/
def writesReg (i : Instruction) (r : Reg) : Bool :=
  match i with
  | .mov64 d _ => d = r
  | .movx64 d _ => d = r
  | .add64 d _ => d = r
  | .loadx8 d _ _ => d = r
  | .loadx16 d _ _ => d = r
  | .loadx32 d _ _ => d = r
  | .loadx64 d _ _ => d = r
  | .loadtype d _ _ => d = r
  | .call _ => r = .r0
  | _ => false

theorem pushIns_ends (st : CState) (i : Instruction) (r : Reg)
    (h : writesReg i r = true) :
    ∃ pre w, (pushIns st i).instructions = pre ++ [w] ∧
      writesReg w r = true :=
  ⟨st.instructions, i, rfl, h⟩

theorem ends_of_append_all {l s : List Instruction} {r : Reg} (hs : s ≠ [])
    (hw : ∀ x ∈ s, writesReg x r = true) :
    ∃ pre w, l ++ s = pre ++ [w] ∧ writesReg w r = true := by
  rcases List.eq_nil_or_concat s with rfl | ⟨s0, a, rfl⟩
  · exact absurd rfl hs
  · exact ⟨l ++ s0, a, by simp, hw a (by simp)⟩

theorem emit_deref_member_access_instrs {ctx : Ctx} {st : CState} {reg : Reg}
    {qt : QualifiedType} {ma : MemberAccess} {t' : QualifiedType} {st' : CState}
    (h : emit_deref_member_access ctx st reg qt ma = .ok (t', st')) :
    ∃ s, st'.instructions = st.instructions ++ s ∧
      ∀ x ∈ s, writesReg x reg = true := by
  unfold emit_deref_member_access at h
  cases hm : get_member_access ctx st qt ma.name with
  | error e => rw [hm] at h; simp at h
  | ok p =>
      rw [hm] at h
      obtain ⟨off, mt⟩ := p
      by_cases ho : 0 < off <;> simp [ho] at h
      · exact ⟨[.add64 reg (wrap32 off)], by rw [← h.2]; rfl,
          by simp [writesReg]⟩
      · exact ⟨[], by rw [← h.2]; simp, by simp⟩

theorem emit_deref_array_index_instrs {ctx : Ctx} {st : CState} {reg : Reg}
    {qt : QualifiedType} {ai : ArrayIndex} {t' : QualifiedType} {st' : CState}
    (h : emit_deref_array_index ctx st reg qt ai = .ok (t', st')) :
    ∃ s, st'.instructions = st.instructions ++ s ∧
      ∀ x ∈ s, writesReg x reg = true := by
  unfold emit_deref_array_index at h
  cases hm : get_array_index ctx st qt ai.element with
  | error e => rw [hm] at h; simp at h
  | ok p =>
      rw [hm] at h
      obtain ⟨off, mt⟩ := p
      by_cases ho : 0 < off <;> simp [ho] at h
      · exact ⟨[.add64 reg (wrap32 off)], by rw [← h.2]; rfl,
          by simp [writesReg]⟩
      · exact ⟨[], by rw [← h.2]; simp, by simp⟩

theorem emit_apply_derefs_instrs {ctx : Ctx} {reg : Reg} :
    ∀ {ds : List DeReference} {st : CState} {qt t' : QualifiedType}
      {st' : CState},
      emit_apply_derefs_to_reg ctx st reg qt ds = .ok (t', st') →
      ∃ s, st'.instructions = st.instructions ++ s ∧
        ∀ x ∈ s, writesReg x reg = true := by
  intro ds
  induction ds with
  | nil =>
      intro st qt t' st' h
      unfold emit_apply_derefs_to_reg at h
      simp at h
      exact ⟨[], by rw [← h.2]; simp, by simp⟩
  | cons d rest ih =>
      intro st qt t' st' h
      unfold emit_apply_derefs_to_reg at h
      have hstep : ∃ s0, (if qt.is_pointer then
          pushIns st (.loadx64 reg reg 0) else st).instructions =
          st.instructions ++ s0 ∧ ∀ x ∈ s0, writesReg x reg = true := by
        split
        · exact ⟨[.loadx64 reg reg 0], rfl, by simp [writesReg]⟩
        · exact ⟨[], by simp, by simp⟩
      obtain ⟨s0, hs0, hw0⟩ := hstep
      cases d with
      | memberAccess ma =>
          simp only [] at h
          rcases hm : emit_deref_member_access ctx
              (if qt.is_pointer then pushIns st (.loadx64 reg reg 0) else st)
              reg qt ma with _ | ⟨nt, st2⟩
          · rw [hm] at h; simp at h
          · rw [hm] at h; simp at h
            obtain ⟨s1, hs1, hw1⟩ := emit_deref_member_access_instrs hm
            obtain ⟨s2, hs2, hw2⟩ := ih h
            refine ⟨s0 ++ s1 ++ s2, by rw [hs2, hs1, hs0]; simp, ?_⟩
            simp only [List.forall_mem_append]
            exact ⟨⟨hw0, hw1⟩, hw2⟩
      | arrayIndex ai =>
          simp only [] at h
          rcases hm : emit_deref_array_index ctx
              (if qt.is_pointer then pushIns st (.loadx64 reg reg 0) else st)
              reg qt ai with _ | ⟨nt, st2⟩
          · rw [hm] at h; simp at h
          · rw [hm] at h; simp at h
            obtain ⟨s1, hs1, hw1⟩ := emit_deref_array_index_instrs hm
            obtain ⟨s2, hs2, hw2⟩ := ih h
            refine ⟨s0 ++ s1 ++ s2, by rw [hs2, hs1, hs0]; simp, ?_⟩
            simp only [List.forall_mem_append]
            exact ⟨⟨hw0, hw1⟩, hw2⟩

theorem emit_set_register_to_lvalue_addr_instrs {ctx : Ctx} {st : CState}
    {reg : Reg} {lval : LValue} {t' : QualifiedType} {st' : CState}
    (h : emit_set_register_to_lvalue_addr ctx st reg lval = .ok (t', st')) :
    ∃ s, st'.instructions = st.instructions ++ s ∧ s ≠ [] ∧
      ∀ x ∈ s, writesReg x reg = true := by
  unfold emit_set_register_to_lvalue_addr at h
  cases hv : get_variable_by_name st lval.name with
  | error e => rw [hv] at h; simp at h
  | ok info =>
      rw [hv] at h
      simp only [except_bind_ok] at h
      cases hl : info.location with
      | specialImmediate v => rw [hl] at h; simp at h
      | stack o =>
          rw [hl] at h
          simp only [] at h
          obtain ⟨s1, hs1, hw1⟩ := emit_apply_derefs_instrs h
          refine ⟨[.movx64 reg .r10, .add64 reg o] ++ s1,
            by rw [hs1]; simp [pushInsList], by simp, ?_⟩
          simp only [List.forall_mem_append]
          refine ⟨by simp [writesReg], hw1⟩

theorem emit_set_register_from_lvalue_ends {ctx : Ctx} {st : CState}
    {reg : Reg} {lval : LValue} {lt : Option MemoryOpLoadType} {st' : CState}
    (h : emit_set_register_from_lvalue ctx st reg lval lt = .ok st') :
    ∃ pre w, st'.instructions = pre ++ [w] ∧ writesReg w reg = true := by
  unfold emit_set_register_from_lvalue at h
  cases hv : get_variable_by_name st lval.name with
  | error e => rw [hv] at h; simp at h
  | ok info =>
      rw [hv] at h
      simp only [except_bind_ok] at h
      cases hl : info.location with
      | specialImmediate v =>
          rw [hl] at h
          by_cases hd : lval.derefs ≠ [] <;> simp [hd] at h
          rw [← h]
          exact pushIns_ends _ _ _ (by simp [writesReg])
      | stack o =>
          rw [hl] at h
          simp only [] at h
          rcases ha : emit_set_register_to_lvalue_addr ctx st reg lval
            with _ | ⟨vt, st1⟩
          · rw [ha] at h; simp at h
          · rw [ha] at h
            simp only [except_bind_ok] at h
            obtain ⟨s1, hs1, hne1, hw1⟩ :=
              emit_set_register_to_lvalue_addr_instrs ha
            by_cases hr : lval.refMark = some RefKind.referenceMark
            · simp [hr] at h
              rw [← h, hs1]
              exact ends_of_append_all hne1 hw1
            · simp only [if_neg hr] at h
              split at h <;> try simp at h
              all_goals (
                by_cases hdm : lval.refMark = some RefKind.dereferenceMark <;>
                  simp only [hdm, ite_true, ite_false] at h)
              all_goals
                try (by_cases hptr : vt.is_pointer = false <;> simp [hptr] at h)
              all_goals try simp only [except_ok_inj] at h
              all_goals
                first
                  | (rw [← h]; exact pushIns_ends _ _ _ (by simp [writesReg]))
                  | simp at h

theorem emit_call_ends {ctx : Ctx} {st : CState} {c : FunctionCall}
    {st' : CState} (h : emit_call ctx st c = .ok st') :
    ∃ pre id, st'.instructions = pre ++ [.call id] := by
  cases c with
  | mk n args =>
      unfold emit_call at h
      cases hn : ctx.helpers.from_string n with
      | none => rw [hn] at h; simp at h
      | some p =>
          obtain ⟨id, types⟩ := p
          rw [hn] at h
          simp only [] at h
          rcases ha : emit_call_args ctx st args 0 types with _ | st1
          · rw [ha] at h; simp at h
          · rw [ha] at h
            simp at h
            exact ⟨st1.instructions, id, by rw [← h]; rfl⟩

theorem emit_set_register_from_rvalue_ends {ctx : Ctx} {st : CState}
    {reg : Reg} {rval : RValue} {lt : Option MemoryOpLoadType} {st' : CState}
    (h : emit_set_register_from_rvalue ctx st reg rval lt = .ok st') :
    ∃ pre w, st'.instructions = pre ++ [w] ∧ writesReg w reg = true := by
  cases rval with
  | immediate s =>
      unfold emit_set_register_from_rvalue at h
      cases lt with
      | some l =>
          rcases hp : parse_immediate st 9223372036854775807 s with _ | imm <;>
            rw [hp] at h <;> simp at h
          rw [← h]
          exact pushIns_ends _ _ _ (by simp [writesReg])
      | none =>
          rcases hp : parse_immediate st 2147483647 s with _ | imm <;>
            rw [hp] at h <;> simp at h
          rw [← h]
          exact pushIns_ends _ _ _ (by simp [writesReg])
  | lvalue l =>
      unfold emit_set_register_from_rvalue at h
      exact emit_set_register_from_lvalue_ends h
  | functionCall c =>
      unfold emit_set_register_from_rvalue at h
      rcases hc : emit_call ctx st c with _ | st1
      · rw [hc] at h; simp at h
      · rw [hc] at h
        simp only [except_bind_ok] at h
        by_cases hr : reg = Reg.r0
        · simp only [hr, if_pos rfl, ite_true] at h
          simp at h
          obtain ⟨pre, id, hpre⟩ := emit_call_ends hc
          refine ⟨pre, .call id, by rw [← h]; exact hpre, ?_⟩
          subst hr; simp [writesReg]
        · simp only [if_neg hr] at h
          simp at h
          rw [← h]
          exact pushIns_ends _ _ _ (by simp [writesReg])

theorem emit_return_ends {ctx : Ctx} {st : CState} {r : Return} {st' : CState}
    (h : emit_return ctx st r = .ok st') :
    ∃ pre w, st'.instructions = pre ++ [w, .exit] ∧
      writesReg w .r0 = true := by
  unfold emit_return at h
  cases r with
  | mk v =>
      cases v with
      | none =>
          simp at h
          refine ⟨st.instructions, .mov64 .r0 0, ?_, by simp [writesReg]⟩
          rw [← h]
          simp [pushInsList]
      | some value =>
          simp only [] at h
          rcases hs : emit_set_register_from_rvalue ctx st .r0 value none
            with _ | st1
          · rw [hs] at h; simp at h
          · rw [hs] at h
            simp at h
            obtain ⟨pre, w, hpre, hw⟩ := emit_set_register_from_rvalue_ends hs
            refine ⟨pre, w, ?_, hw⟩
            rw [← h]
            simp [pushIns, hpre]

theorem emit_exprs_last_ret {ctx : Ctx} :
    ∀ {exprs : List Expression} {st st' : CState} {r : Return},
      exprs.getLast? = some (.ret r) →
      emit_exprs ctx st exprs = .ok st' →
      ∃ pre w, st'.instructions = pre ++ [w, .exit] ∧
        writesReg w .r0 = true := by
  intro exprs
  induction exprs with
  | nil => intro st st' r hl; simp at hl
  | cons e rest ih =>
      intro st st' r hl h
      unfold emit_exprs at h
      simp only [except_bind_ok_iff] at h
      obtain ⟨st1, he, h⟩ := h
      cases rest with
      | nil =>
          simp at hl
          subst hl
          unfold emit_exprs at h
          simp at h
          subst h
          exact emit_return_ends he
      | cons e2 rest2 =>
          rw [List.getLast?_cons_cons] at hl
          exact ih hl h

theorem emit_body_ends {ctx : Ctx} {st : CState} {ast : ScriptDef}
    {st' : CState} (h : emit_body ctx st ast = .ok st') :
    (∃ pre w, st'.instructions = pre ++ [w, .exit] ∧
      writesReg w .r0 = true) ∧
    ((¬ ∃ r, ast.exprs.getLast? = some (.ret r)) →
      ∃ pre, st'.instructions = pre ++ [.mov64 .r0 0, .exit]) := by
  unfold emit_body at h
  simp only [except_bind_ok_iff] at h
  obtain ⟨st1, he, h⟩ := h
  split at h
  · rename_i r hl
    simp at h
    subst h
    refine ⟨emit_exprs_last_ret hl he, ?_⟩
    intro hnone
    exact absurd ⟨_, hl⟩ hnone
  · rename_i hnr
    have hb := emit_return_ends h
    refine ⟨hb, ?_⟩
    intro _
    unfold emit_return at h
    simp at h
    exact ⟨st1.instructions, by rw [← h]; simp [pushInsList]⟩


/-! ## Concrete fixtures used by witnesses and counterexamples -/

/-- A context with an empty type database and helper catalog. -/
def emptyCtx : Ctx := ⟨⟨[], []⟩, ⟨[]⟩⟩

/-- A small type database: `u32`/`u64` integers, a 5-byte struct `s5`, and a
3-element array type `arr3` whose elements are type id 1 (`u32`). -/
def db0 : BtfTypes :=
  { byName := [("u32", QualifiedType.int 4 false),
               ("u64", QualifiedType.int 8 false),
               ("s5", ⟨.structTy 5 [], 0⟩),
               ("arr3", ⟨.array 1 3, 0⟩)],
    byId := [(1, QualifiedType.int 4 false)] }

/-- A helper catalog with the one helper pinned by the repository tests. -/
def hc0 : HelperCatalog :=
  { entries := [("get_current_uid_gid", 15,
      [.void, .void, .void, .void, .void])] }

def ctx0 : Ctx := ⟨db0, hc0⟩

/-! ## Claim theorems -/

/-- C1, counterexample: the stack-budget check is `u32` arithmetic, so at a
state with 512 bytes already committed, a request of `2^32 - 512` further
bytes wraps the sum to 0, passes the `> 512` check, and commits instead of
failing with the stack-budget error, even though committed + n exceeds
512. -/
theorem c1_counterexample :
    512 + 4294966784 > 512 ∧
    push_stack { vars := [], instructions := [], stack := 512, exprNum := 1 }
        4294966784 =
      .ok (0, { vars := [], instructions := [], stack := 0, exprNum := 1 }) :=
  ⟨by decide, by decide⟩

/-- C1 (amended): provided the `u32` counter does not overflow
(committed + n < 2^32), a request of `n` bytes fails with the stack-budget
error exactly when committed + n exceeds 512 and otherwise commits the bytes
and returns the new negative frame offset; every successful request leaves
the counter at most 512 and returns minus the new counter; hence every
compilation that starts within budget (in particular from a fresh compiler)
ends within budget. -/
theorem c1_stack_budget (st : CState) (n : Nat)
    (hov : st.stack + n < 4294967296) :
    ((512 < st.stack + n →
        push_stack st n = .error (msgStackExceeded st.exprNum)) ∧
     (st.stack + n ≤ 512 →
        push_stack st n =
          .ok (-((st.stack + n : Nat) : Int),
            { st with stack := st.stack + n }))) ∧
    (∀ (sz : Nat) (off : Int) (st' : CState),
      push_stack st sz = .ok (off, st') →
      st'.stack ≤ 512 ∧ off = -(st'.stack : Int)) ∧
    (∀ (ctx : Ctx) (st0 : CState) (ast : ScriptDef) (st' : CState),
      st0.stack ≤ 512 → compile ctx st0 ast = .ok st' → st'.stack ≤ 512) := by
  refine ⟨⟨?_, ?_⟩, ?_, ?_⟩
  · intro hgt
    unfold push_stack
    rw [Nat.mod_eq_of_lt hov]
    simp [hgt]
  · intro hle
    rcases hres : push_stack st n with e | ⟨off, st2⟩
    · exfalso
      unfold push_stack at hres
      rw [Nat.mod_eq_of_lt hov, if_neg (by omega)] at hres
      simp at hres
    · obtain ⟨h1, h2, h3, h4, h5, h6⟩ := push_stack_ok hres
      rw [Nat.mod_eq_of_lt hov] at h1
      have hst2 : st2 = { st with stack := st.stack + n } := by
        rcases st2 with ⟨va, ia, sa, ea⟩
        simp only at h1 h3 h4 h5
        simp [h1, h3, h4, h5]
      subst hst2
      simp only at h6
      simp [h6, h1]
  · intro sz off st' h
    exact ⟨(push_stack_ok h).2.1, (push_stack_ok h).2.2.2.2.2⟩
  · intro ctx st0 ast st' h0 hc
    rcases compile_stackInv hc with h | h
    · rw [h]; exact h0
    · exact h

/-- C1 witness: the theorem instantiated at a fresh compiler requesting
8 bytes. -/
theorem c1_stack_budget_witness :
    CState.create.stack + 8 < 4294967296 ∧
    push_stack CState.create 8 =
      .ok (-8, { vars := [], instructions := [], stack := 8, exprNum := 1 }) := by
  refine ⟨by decide, ?_⟩
  have h := (c1_stack_budget CState.create 8 (by decide)).1.2 (by decide)
  simpa using h

/-- C2: every successful compilation ends with an `exit` instruction
immediately preceded by an instruction that writes the result register `r0`,
and when the script's final top-level statement is not a return, the implicit
value-less return `r0 = 0; exit` is the appended tail. -/
theorem c2_exit_after_result_write (ctx : Ctx) (st : CState) (ast : ScriptDef)
    (st' : CState) (h : compile ctx st ast = .ok st') :
    (∃ pre w, st'.instructions = pre ++ [w, .exit] ∧
      writesReg w .r0 = true) ∧
    ((¬ ∃ r, ast.exprs.getLast? = some (.ret r)) →
      ∃ pre, st'.instructions = pre ++ [.mov64 .r0 0, .exit]) := by
  unfold compile at h
  simp only [except_bind_ok_iff] at h
  obtain ⟨st1, hp, st2, hb, h⟩ := h
  simp only [except_pure_eq, except_ok_inj] at h
  have hinstr : st'.instructions = st2.instructions := by rw [← h]; rfl
  rw [hinstr]
  exact emit_body_ends hb

/-- C2 witness: the empty program compiles to `r0 = 0; exit`, which matches
the required shape. -/
theorem c2_exit_after_result_write_witness :
    ∃ pre w,
      ({ vars := [], instructions := [.mov64 .r0 0, .exit], stack := 0,
         exprNum := 1 } : CState).instructions = pre ++ [w, .exit] ∧
      writesReg w .r0 = true :=
  (c2_exit_after_result_write emptyCtx CState.create ⟨⟨[]⟩, []⟩
    { vars := [], instructions := [.mov64 .r0 0, .exit], stack := 0,
      exprNum := 1 } (by decide)).1

/-- C9: `capture` stores the host value truncated to its low 32 bits
(`value as u32`), under the 64-bit signed integer type, and a later by-value
reference of the captured name emits a single typed-immediate load of that
truncated value (not of the full 64-bit value). -/
theorem c9_capture_truncates (st : CState) (name : String) (v : Int) :
    lookupVar (capture st name v).vars name =
      some ⟨QualifiedType.int 8 true,
        .specialImmediate ((v.emod 4294967296).toNat)⟩ ∧
    (∀ (ctx : Ctx) (reg : Reg) (lt : Option MemoryOpLoadType),
      emit_set_register_from_lvalue ctx (capture st name v) reg
          ⟨none, name, []⟩ lt =
        .ok (pushIns (capture st name v)
          (.loadtype reg ((v.emod 4294967296).toNat : Int) (lt.getD .void)))) := by
  have hlook : lookupVar (capture st name v).vars name =
      some ⟨QualifiedType.int 8 true,
        .specialImmediate ((v.emod 4294967296).toNat)⟩ := by
    simp [capture, insertVar, lookupVar, toU32, List.find?]
  refine ⟨hlook, ?_⟩
  intro ctx reg lt
  unfold emit_set_register_from_lvalue get_variable_by_name
  rw [hlook]
  simp

/-- Helper for C10: lowering an lvalue as an assignment source computes its
address first, which fails for a captured-immediate variable. -/
theorem emit_push_lvalue_captured {ctx : Ctx} {st : CState} {lv : LValue}
    {ct : QualifiedType} {uo : Option Int} {t : QualifiedType} {v : Nat}
    (hl : lookupVar st.vars lv.name = some ⟨t, .specialImmediate v⟩) :
    emit_push_lvalue ctx st lv ct uo = .error (msgAssignSpecial st.exprNum) := by
  unfold emit_push_lvalue emit_set_register_to_lvalue_addr get_variable_by_name
  rw [hl]
  simp

/-- C10: an assignment whose right-hand side is an lvalue naming a
captured-immediate variable always fails (whatever the left-hand side and
the declared or inferred cast type), while returning the same captured name
by value succeeds with a single typed-immediate load followed by `exit`. -/
theorem c10_captured_assignment_source_fails (ctx : Ctx) (st : CState)
    (a : Assignment) (lv : LValue) (t : QualifiedType) (v : Nat)
    (hrhs : a.right = .lvalue lv)
    (hlook : lookupVar st.vars lv.name = some ⟨t, .specialImmediate v⟩) :
    (∃ e, emit_assign ctx st a = .error e) ∧
    (emit_return ctx st ⟨some (.lvalue ⟨none, lv.name, []⟩)⟩ =
      .ok (pushIns (pushIns st (.loadtype .r0 (v : Int) .void)) .exit)) := by
  constructor
  · cases hvl : lookupVar st.vars a.left.name with
    | some info =>
        cases htn : a.type_name with
        | some tn =>
            refine ⟨msgRetype st.exprNum a.left.name, ?_⟩
            unfold emit_assign
            rw [hvl, htn]
            simp
        | none =>
            cases hloc : info.location with
            | specialImmediate w =>
                refine ⟨msgCannotReassign st.exprNum a.left.name, ?_⟩
                unfold emit_assign
                rw [hvl, htn]
                simp only [Option.isSome_none, Bool.false_eq_true, if_false]
                rw [hloc]
            | stack o =>
                rcases hao : get_assign_offset ctx st info.var_type
                    a.left.derefs with e | ⟨rel, oty⟩
                · refine ⟨e, ?_⟩
                  unfold emit_assign
                  rw [hvl, htn]
                  simp only [Option.isSome_none, Bool.false_eq_true, if_false]
                  rw [hloc]
                  simp [hao]
                · refine ⟨msgAssignSpecial st.exprNum, ?_⟩
                  unfold emit_assign
                  rw [hvl, htn]
                  simp only [Option.isSome_none, Bool.false_eq_true, if_false]
                  rw [hloc]
                  simp only [hao, except_bind_ok]
                  rw [hrhs]
                  unfold emit_push_rvalue
                  simp only []
                  rw [emit_push_lvalue_captured hlook]
                  simp
    | none =>
        cases htn : a.type_name with
        | some tn =>
            rcases hr : resolve_type_by_decl ctx st tn with e | ct2
            · refine ⟨e, ?_⟩
              unfold emit_assign
              rw [hvl, htn]
              simp [hr]
            · refine ⟨msgAssignSpecial st.exprNum, ?_⟩
              unfold emit_assign
              rw [hvl, htn]
              simp only [hr, except_bind_ok]
              rw [hrhs]
              unfold emit_push_rvalue
              simp only []
              rw [emit_push_lvalue_captured hlook]
              simp
        | none =>
            refine ⟨msgAssignSpecial st.exprNum, ?_⟩
            unfold emit_assign
            rw [hvl, htn]
            simp only [except_pure_eq, except_bind_ok]
            rw [hrhs]
            unfold emit_push_rvalue
            simp only []
            rw [emit_push_lvalue_captured hlook]
            simp
  · unfold emit_return emit_set_register_from_rvalue
      emit_set_register_from_lvalue get_variable_by_name
    simp [hlook]

/-- C10 witness: capturing `outer` and then compiling `x = outer` fails,
while `return outer` succeeds. -/
theorem c10_captured_assignment_source_fails_witness :
    (∃ e, emit_assign emptyCtx (capture CState.create "outer" 7)
      ⟨⟨none, "x", []⟩, none, .lvalue ⟨none, "outer", []⟩⟩ = .error e) ∧
    (emit_return emptyCtx (capture CState.create "outer" 7)
        ⟨some (.lvalue ⟨none, "outer", []⟩)⟩ =
      .ok (pushIns (pushIns (capture CState.create "outer" 7)
        (.loadtype .r0 7 .void)) .exit)) :=
  c10_captured_assignment_source_fails emptyCtx
    (capture CState.create "outer" 7)
    ⟨⟨none, "x", []⟩, none, .lvalue ⟨none, "outer", []⟩⟩
    ⟨none, "outer", []⟩ (QualifiedType.int 8 true) 7 rfl (by decide)


/-- C4, counterexample: referencing a captured name *with* the reference
prefix `&` in a consuming position does not fail: the prefix is ignored and
the same typed-immediate load is emitted (the claim says it always fails). -/
theorem c4_counterexample :
    emit_set_register_from_lvalue emptyCtx (capture CState.create "outer" 7)
        .r0 ⟨some .referenceMark, "outer", []⟩ none =
      .ok (pushIns (capture CState.create "outer" 7)
        (.loadtype .r0 7 .void)) := by
  decide

/-- C4 (amended): for a captured name, a by-value reference with no
dereference suffix emits exactly one typed-immediate load into the consuming
register and allocates no stack slot, and this holds for any prefix — the
reference prefix `&` is ignored in the consuming-register path rather than
rejected; any dereference/member/array suffix fails; and computing the
name's address (the assignment-target/source path) always fails. -/
theorem c4_captured_reference (ctx : Ctx) (st : CState) (name : String)
    (t : QualifiedType) (v : Nat)
    (hlook : lookupVar st.vars name = some ⟨t, .specialImmediate v⟩) :
    (∀ (reg : Reg) (rm : Option RefKind) (lt : Option MemoryOpLoadType),
      emit_set_register_from_lvalue ctx st reg ⟨rm, name, []⟩ lt =
        .ok (pushIns st (.loadtype reg (v : Int) (lt.getD .void)))) ∧
    (∀ (reg : Reg) (rm : Option RefKind) (lt : Option MemoryOpLoadType)
       (ds : List DeReference), ds ≠ [] →
      emit_set_register_from_lvalue ctx st reg ⟨rm, name, ds⟩ lt =
        .error (msgDerefSpecial st.exprNum)) ∧
    (∀ (reg : Reg) (lv : LValue), lv.name = name →
      emit_set_register_to_lvalue_addr ctx st reg lv =
        .error (msgAssignSpecial st.exprNum)) := by
  refine ⟨?_, ?_, ?_⟩
  · intro reg rm lt
    unfold emit_set_register_from_lvalue get_variable_by_name
    simp [hlook]
  · intro reg rm lt ds hds
    unfold emit_set_register_from_lvalue get_variable_by_name
    simp [hlook, hds]
  · intro reg lv hname
    unfold emit_set_register_to_lvalue_addr get_variable_by_name
    rw [hname, hlook]
    simp

/-- C4 witness: the amended theorem at a concrete captured value. -/
theorem c4_captured_reference_witness :
    emit_set_register_from_lvalue emptyCtx (capture CState.create "outer" 7)
        .r1 ⟨none, "outer", []⟩ none =
      .ok (pushIns (capture CState.create "outer" 7)
        (.loadtype .r1 7 .void)) ∧
    emit_set_register_from_lvalue emptyCtx (capture CState.create "outer" 7)
        .r1 ⟨none, "outer", [.memberAccess ⟨"f"⟩]⟩ none =
      .error (msgDerefSpecial 1) := by
  have h := c4_captured_reference emptyCtx (capture CState.create "outer" 7)
    "outer" (QualifiedType.int 8 true) 7 (by decide)
  exact ⟨h.1 .r1 none none,
    h.2.1 .r1 none none [.memberAccess ⟨"f"⟩] (by simp)⟩

/-- C5, counterexample: the name `outer` is already defined in the symbol
table (as a captured immediate), yet reassigning it without a type
declaration fails instead of succeeding, refuting the claim's second half. -/
theorem c5_counterexample :
    lookupVar (capture CState.create "outer" 7).vars "outer" ≠ none ∧
    emit_assign emptyCtx (capture CState.create "outer" 7)
        ⟨⟨none, "outer", []⟩, none, .immediate "1"⟩ =
      .error "[Line 1] Variable \"outer\" cannot be re-assigned." :=
  ⟨by decide, by decide⟩

/-- C5 (amended): reassigning an already-defined name with an explicit type
always fails with the re-typing error; reassigning a *stack-resident*
variable without a type declaration lowers the right-hand side into the
variable's original slot at `off + chain offset` with the chain-narrowed
original type and registers no new symbol-table entry (so the symbol table is
unchanged by any successful reassignment); reassigning a captured-immediate
variable without a type declaration fails. -/
theorem c5_reassignment (ctx : Ctx) (st : CState) (a : Assignment)
    (info : VariableInfo)
    (hlook : lookupVar st.vars a.left.name = some info) :
    (a.type_name.isSome = true →
      emit_assign ctx st a = .error (msgRetype st.exprNum a.left.name)) ∧
    (∀ (t : QualifiedType) (off : Int), a.type_name = none →
      info = ⟨t, .stack off⟩ →
      emit_assign ctx st a = (do
        let (rel_off, offset_type) ← get_assign_offset ctx st t a.left.derefs
        let (_, _, st2) ←
          emit_push_rvalue ctx st a.right offset_type (some (off + rel_off))
        pure st2)) ∧
    (∀ st', emit_assign ctx st a = .ok st' → st'.vars = st.vars) ∧
    (∀ (t : QualifiedType) (v : Nat), a.type_name = none →
      info = ⟨t, .specialImmediate v⟩ →
      emit_assign ctx st a =
        .error (msgCannotReassign st.exprNum a.left.name)) := by
  refine ⟨?_, ?_, ?_, ?_⟩
  · intro hts
    unfold emit_assign
    rw [hlook]
    simp [hts]
  · intro t off htn hinfo
    subst hinfo
    unfold emit_assign
    rw [hlook, htn]
    simp only [Option.isSome_none, Bool.false_eq_true, if_false]
  · intro st' h
    unfold emit_assign at h
    rw [hlook] at h
    simp only [] at h
    by_cases hts : a.type_name.isSome
    · simp [hts] at h
    · simp only [hts, Bool.false_eq_true, if_false] at h
      cases hloc : info.location with
      | specialImmediate w => rw [hloc] at h; simp at h
      | stack o =>
          rw [hloc] at h
          simp only [except_bind_ok_iff] at h
          obtain ⟨⟨rel, oty⟩, hao, ⟨o2, nt2, st2⟩, hpr, h⟩ := h
          simp at h
          rw [← h]
          exact (emit_push_rvalue_inv hpr).2.2
  · intro t v htn hinfo
    subst hinfo
    unfold emit_assign
    rw [hlook, htn]
    simp only [Option.isSome_none, Bool.false_eq_true, if_false]

/-- A one-variable state used by witnesses: `x` is a stack-resident
unsigned 64-bit variable at frame offset -8. -/
def stX : CState :=
  { vars := [("x", ⟨QualifiedType.int 8 false, .stack (-8)⟩)],
    instructions := [], stack := 8, exprNum := 1 }

/-- C5 witness: the amended theorem at the concrete variable `x`: re-typing
fails, and an untyped reassignment stores through the original 8-byte slot
at -8 with the original type, leaving the symbol table unchanged. -/
theorem c5_reassignment_witness :
    emit_assign ctx0 stX
        ⟨⟨none, "x", []⟩, some ⟨false, "u64"⟩, .immediate "5"⟩ =
      .error (msgRetype 1 "x") ∧
    emit_assign ctx0 stX ⟨⟨none, "x", []⟩, none, .immediate "5"⟩ =
      .ok { stX with instructions := [.store64 .r10 (-8) 5] } := by
  constructor
  · exact (c5_reassignment ctx0 stX
      ⟨⟨none, "x", []⟩, some ⟨false, "u64"⟩, .immediate "5"⟩
      ⟨QualifiedType.int 8 false, .stack (-8)⟩ (by decide)).1 rfl
  · have h := (c5_reassignment ctx0 stX
      ⟨⟨none, "x", []⟩, none, .immediate "5"⟩
      ⟨QualifiedType.int 8 false, .stack (-8)⟩ (by decide)).2.1
      (QualifiedType.int 8 false) (-8) rfl rfl
    rw [h]
    decide


/-- C3: for an array-index dereference step on an array type, an index
literal parsing to `v` (as `u32`) with `v` strictly greater than the declared
element count fails with the out-of-bounds error; every `v` less than or
equal to the count — including the boundary `v` equal to the count — is
accepted when the element type resolves, and the byte offset is
`element_size * index` (in the source's `u32` arithmetic). -/
theorem c3_array_index (ctx : Ctx) (st : CState) (q : QualifiedType)
    (etId cnt : Nat) (s : String) (v : Nat)
    (hq : q.base_type = .array etId cnt)
    (hp : parseDecDigits s = some v) (hv : v ≤ 4294967295) :
    (cnt < v → get_array_index ctx st q s =
      .error (msgArrayOutOfBounds st.exprNum v cnt)) ∧
    (v ≤ cnt → ∀ et, ctx.types.resolve_type_by_id etId = some et →
      get_array_index ctx st q s =
        .ok ((et.get_size * v) % 4294967296, et)) := by
  have hparse : parse_immediate st 4294967295 s = .ok v := by
    unfold parse_immediate
    rw [hp]
    simp [hv]
  constructor
  · intro hgt
    unfold get_array_index
    rw [hparse]
    simp only [except_bind_ok]
    rw [hq]
    simp [hgt]
  · intro hle et het
    unfold get_array_index
    rw [hparse]
    simp only [except_bind_ok]
    rw [hq]
    simp only []
    rw [if_neg (show ¬ v > cnt by omega)]
    unfold resolve_type_by_id
    rw [het]
    simp

/-- C3 witness: on a 3-element array of 4-byte elements, the boundary index
3 (equal to the count) is accepted with offset 12, and index 4 is rejected
with the out-of-bounds error. -/
theorem c3_array_index_witness :
    get_array_index ctx0 CState.create ⟨.array 1 3, 0⟩ "3" =
      .ok (12, QualifiedType.int 4 false) ∧
    get_array_index ctx0 CState.create ⟨.array 1 3, 0⟩ "4" =
      .error (msgArrayOutOfBounds 1 4 3) := by
  constructor
  · have h := (c3_array_index ctx0 CState.create ⟨.array 1 3, 0⟩ 1 3 "3" 3
      rfl (by decide) (by decide)).2 (by decide)
      (QualifiedType.int 4 false) (by decide)
    simpa using h
  · exact (c3_array_index ctx0 CState.create ⟨.array 1 3, 0⟩ 1 3 "4" 4
      rfl (by decide) (by decide)).1 (by decide)

/-- Helper for C6: an argument-register index only resolves below 5. -/
theorem argRegister_lt {i : Nat} {r : Reg} (h : argRegister i = some r) :
    i < 5 := by
  rcases i with _ | _ | _ | _ | _ | i <;> simp [argRegister] at h ⊢

/-- Helper for C6: the argument loop always errors once the indices of the
remaining arguments reach past the fifth argument register. -/
theorem emit_call_args_too_many {ctx : Ctx} :
    ∀ {args : List RValue} {st : CState} {i : Nat}
      {types : List MemoryOpLoadType},
      args ≠ [] → 5 < i + args.length →
      ∃ e, emit_call_args ctx st args i types = .error e := by
  intro args
  induction args with
  | nil => intro st i types hne; exact absurd rfl hne
  | cons a rest ih =>
      intro st i types hne hlen
      unfold emit_call_args
      cases hreg : argRegister i with
      | none => exact ⟨msgTooManyArgs st.exprNum, rfl⟩
      | some reg =>
          have hi : i < 5 := argRegister_lt hreg
          cases hty : types[i]? with
          | none => exact ⟨msgArgTypeOutOfRange, rfl⟩
          | some t =>
              simp only [except_pure_eq, except_bind_ok]
              cases hs : emit_set_register_from_rvalue ctx st reg a (some t) with
              | error e => exact ⟨e, rfl⟩
              | ok st1 =>
                  have hrest : rest ≠ [] := by
                    intro hr
                    subst hr
                    simp at hlen
                    omega
                  obtain ⟨e, he⟩ := @ih st1 (i + 1) types hrest
                    (by simp at hlen ⊢; omega)
                  exact ⟨e, he⟩

/-- C6, counterexample: a call with six arguments whose callee is not in the
helper catalog fails with the unknown-helper error, not the 5-argument arity
error, refuting "always fails with the 5-argument arity error". -/
theorem c6_counterexample :
    emit_call emptyCtx CState.create
        (.mk "foo" [.immediate "1", .immediate "1", .immediate "1",
          .immediate "1", .immediate "1", .immediate "1"]) =
      .error "[Line 1] Unknown helper function \"foo\"." ∧
    "[Line 1] Unknown helper function \"foo\"." ≠ msgTooManyArgs 1 := by
  constructor
  · unfold emit_call
    rw [show emptyCtx.helpers.from_string "foo" = none from rfl]
    rfl
  · decide

/-- C6 (amended): every call with six or more arguments fails (with some
error); when the callee resolves in the catalog and the arguments are plain
immediates (so the first five lower successfully), the failure is exactly
the 5-argument arity error; and a function signature with six or more input
arguments always fails with the arity error before anything is emitted. -/
theorem c6_arity :
    (∀ (ctx : Ctx) (st : CState) (c : FunctionCall), 5 < c.args.length →
      ∃ e, emit_call ctx st c = .error e) ∧
    (∀ (ctx : Ctx) (st : CState) (name : String) (id : Nat)
       (types : List MemoryOpLoadType),
      ctx.helpers.from_string name = some (id, types) → 5 ≤ types.length →
      emit_call ctx st (.mk name (List.replicate 6 (.immediate "1"))) =
        .error (msgTooManyArgs st.exprNum)) ∧
    (∀ (ctx : Ctx) (st : CState) (ast : ScriptDef),
      5 < ast.input.args.length →
      emit_prologue ctx st ast = .error (msgTooManyArgs st.exprNum)) := by
  refine ⟨?_, ?_, ?_⟩
  · intro ctx st c hlen
    cases c with
    | mk name args =>
        unfold emit_call
        cases hn : ctx.helpers.from_string name with
        | none => exact ⟨msgUnknownHelper st.exprNum name, rfl⟩
        | some p =>
            obtain ⟨id, types⟩ := p
            simp only [FunctionCall.args] at hlen
            obtain ⟨e, he⟩ := @emit_call_args_too_many ctx args st 0 types
              (by intro hnil; subst hnil; simp at hlen) (by omega)
            exact ⟨e, by simp [he]⟩
  · intro ctx st name id types hn hlen
    rcases types with _ | ⟨t0, _ | ⟨t1, _ | ⟨t2, _ | ⟨t3, _ | ⟨t4, ts⟩⟩⟩⟩⟩ <;>
      simp at hlen
    have hparse : ∀ (st2 : CState) (b : Nat), 1 ≤ b →
        parse_immediate st2 b "1" = .ok 1 := by
      intro st2 b hb
      unfold parse_immediate
      rw [show parseDecDigits "1" = some 1 from rfl]
      simp [hb]
    unfold emit_call
    rw [hn]
    simp only [List.replicate, except_pure_eq, except_bind_ok]
    unfold emit_call_args
    simp only [argRegister, List.getElem?_cons_zero, except_pure_eq,
      except_bind_ok]
    rw [show emit_set_register_from_rvalue ctx st .r1 (.immediate "1")
        (some t0) = .ok (pushIns st (.loadtype .r1 1 t0)) from by
      unfold emit_set_register_from_rvalue
      rw [hparse st 9223372036854775807 (by norm_num)]
      simp]
    simp only [except_bind_ok]
    unfold emit_call_args
    simp only [argRegister, List.getElem?_cons_succ, List.getElem?_cons_zero,
      except_pure_eq, except_bind_ok]
    rw [show emit_set_register_from_rvalue ctx (pushIns st (.loadtype .r1 1 t0))
        .r2 (.immediate "1") (some t1) =
        .ok (pushIns (pushIns st (.loadtype .r1 1 t0)) (.loadtype .r2 1 t1))
        from by
      unfold emit_set_register_from_rvalue
      rw [hparse _ 9223372036854775807 (by norm_num)]
      simp]
    simp only [except_bind_ok]
    unfold emit_call_args
    simp only [argRegister, List.getElem?_cons_succ, List.getElem?_cons_zero,
      except_pure_eq, except_bind_ok]
    rw [show ∀ st2 : CState, emit_set_register_from_rvalue ctx st2
        .r3 (.immediate "1") (some t2) =
        .ok (pushIns st2 (.loadtype .r3 1 t2)) from fun st2 => by
      unfold emit_set_register_from_rvalue
      rw [hparse _ 9223372036854775807 (by norm_num)]
      simp]
    simp only [except_bind_ok]
    unfold emit_call_args
    simp only [argRegister, List.getElem?_cons_succ, List.getElem?_cons_zero,
      except_pure_eq, except_bind_ok]
    rw [show ∀ st2 : CState, emit_set_register_from_rvalue ctx st2
        .r4 (.immediate "1") (some t3) =
        .ok (pushIns st2 (.loadtype .r4 1 t3)) from fun st2 => by
      unfold emit_set_register_from_rvalue
      rw [hparse _ 9223372036854775807 (by norm_num)]
      simp]
    simp only [except_bind_ok]
    unfold emit_call_args
    simp only [argRegister, List.getElem?_cons_succ, List.getElem?_cons_zero,
      except_pure_eq, except_bind_ok]
    rw [show ∀ st2 : CState, emit_set_register_from_rvalue ctx st2
        .r5 (.immediate "1") (some t4) =
        .ok (pushIns st2 (.loadtype .r5 1 t4)) from fun st2 => by
      unfold emit_set_register_from_rvalue
      rw [hparse _ 9223372036854775807 (by norm_num)]
      simp]
    simp only [except_bind_ok]
    unfold emit_call_args
    simp only [argRegister, except_bind_err]
    rfl
  · intro ctx st ast hn
    unfold emit_prologue
    rw [if_pos hn]


/-- C6 witness: a known 5-hint helper called with six immediate arguments
fails with the arity error, and so does a 6-argument function signature. -/
theorem c6_arity_witness :
    emit_call ctx0 CState.create
        (.mk "get_current_uid_gid" (List.replicate 6 (.immediate "1"))) =
      .error (msgTooManyArgs 1) ∧
    emit_prologue ctx0 CState.create
        ⟨⟨List.replicate 6 ⟨"a", ⟨false, "u32"⟩⟩⟩, []⟩ =
      .error (msgTooManyArgs 1) :=
  ⟨c6_arity.2.1 ctx0 CState.create "get_current_uid_gid" 15
      [.void, .void, .void, .void, .void] (by decide) (by decide),
    c6_arity.2.2 ctx0 CState.create ⟨⟨List.replicate 6 ⟨"a", ⟨false, "u32"⟩⟩⟩, []⟩
      (by decide)⟩

/-- Helper for C7: compiling `fn()` followed by a single `return <literal>`
reduces to parsing the literal as a 32-bit signed immediate: on success the
program is exactly the move of the value into `r0` followed by `exit`, on
parse failure compilation fails with the bad-immediate error (reported at
line 2, the statement counter having been incremented once). -/
theorem compile_return_literal (ctx : Ctx) (s : String) :
    compile ctx CState.create ⟨⟨[]⟩, [.ret ⟨some (.immediate s)⟩]⟩ =
      match parseDecDigits s with
      | some v =>
          if v ≤ 2147483647 then
            .ok { vars := [], instructions := [.mov64 .r0 (v : Int), .exit],
                  stack := 0, exprNum := 2 }
          else .error (msgBadImmediate 2 s)
      | none => .error (msgBadImmediate 2 s) := by
  rcases hp : parseDecDigits s with _ | v
  · simp [compile, emit_prologue, emit_prologue_args, emit_body, emit_exprs,
      emit_expression, emit_return, emit_set_register_from_rvalue,
      parse_immediate, hp, optimize, CState.create]
  · by_cases hv : v ≤ 2147483647 <;>
      simp [compile, emit_prologue, emit_prologue_args, emit_body, emit_exprs,
        emit_expression, emit_return, emit_set_register_from_rvalue,
        parse_immediate, hp, hv, optimize, CState.create, pushIns]

/-- C7, counterexample: the digit string `2147483648` is admitted by the
grammar (it parses as a decimal digit string), yet compiling
`fn()` / `return 2147483648` fails — the literal is parsed as a 32-bit
signed immediate — instead of producing `r0 = 2147483648; exit`. -/
theorem c7_counterexample :
    parseDecDigits "2147483648" = some 2147483648 ∧
    compile emptyCtx CState.create
        ⟨⟨[]⟩, [.ret ⟨some (.immediate "2147483648")⟩]⟩ =
      .error "[Line 2] Bad immediate value \"2147483648\"." := by
  constructor
  · rfl
  · rw [compile_return_literal]
    rw [show parseDecDigits "2147483648" = some 2147483648 from rfl]
    norm_num
    rfl

/-- C7 (amended): for every grammar-admitted decimal digit string whose
value fits a 32-bit signed immediate (at most 2147483647), the script
`fn()` / `return <digits>` compiles to exactly the two instructions
`r0 = <value>; exit`. -/
theorem c7_return_literal (ctx : Ctx) (s : String) (v : Nat)
    (hp : parseDecDigits s = some v) (hv : v ≤ 2147483647) :
    compile ctx CState.create ⟨⟨[]⟩, [.ret ⟨some (.immediate s)⟩]⟩ =
      .ok { vars := [], instructions := [.mov64 .r0 (v : Int), .exit],
            stack := 0, exprNum := 2 } := by
  rw [compile_return_literal, hp]
  simp [hv]

/-- C7 witness: `return 300` compiles to `r0 = 300; exit`. -/
theorem c7_return_literal_witness :
    compile emptyCtx CState.create ⟨⟨[]⟩, [.ret ⟨some (.immediate "300")⟩]⟩ =
      .ok { vars := [], instructions := [.mov64 .r0 300, .exit],
            stack := 0, exprNum := 2 } := by
  have h := c7_return_literal emptyCtx "300" 300 rfl (by norm_num)
  simpa using h

set_option maxRecDepth 8192

/-- The `emit_init_stack` fill word equals the low byte replicated across
all eight bytes, for the byte values reachable from a digit literal
(`0..127` after the signed 8-bit parse). -/
theorem memsetPattern_byte : ∀ b : Nat, b ≤ 127 →
    memsetPattern (b : Int) = (b : Int) * 72340172838076673 := by decide

/-- Truncating the replicated fill word to 32 bits replicates the byte four
times. -/
theorem wrap32_memset : ∀ b : Nat, b ≤ 127 →
    wrap32 ((b : Int) * 72340172838076673) = (b : Int) * 16843009 := by decide

/-- Truncating the replicated fill word to 16 bits replicates the byte
twice. -/
theorem wrap16_memset : ∀ b : Nat, b ≤ 127 →
    wrap16 ((b : Int) * 72340172838076673) = (b : Int) * 257 := by decide

/-- Truncating the replicated fill word to 8 bits gives back the byte. -/
theorem wrap8_memset : ∀ b : Nat, b ≤ 127 →
    wrap8 ((b : Int) * 72340172838076673) = (b : Int) := by decide

/-- Helper for C8: the chunk list of `emit_init_stack`, with the offsets in
`i16` range, written with the replicated-byte immediates. -/
theorem initStackChunks_spec (off : Int) (b sz : Nat) (hb : b ≤ 127)
    (hoff : -32768 ≤ off) (hsum : off + sz ≤ 32767) :
    initStackChunks off (memsetPattern (b : Int)) sz =
      (List.range (sz / 8)).map (fun k =>
        .store64 .r10 (off + 8 * (k : Int)) ((b : Int) * 72340172838076673)) ++
      (List.range (sz % 8 / 4)).map (fun k =>
        .store32 .r10 (off + 8 * ((sz / 8 : Nat) : Int) + 4 * (k : Int))
          ((b : Int) * 16843009)) ++
      (List.range (sz % 8 % 4 / 2)).map (fun k =>
        .store16 .r10 (off + 8 * ((sz / 8 : Nat) : Int) +
          4 * ((sz % 8 / 4 : Nat) : Int) + 2 * (k : Int)) ((b : Int) * 257)) ++
      (List.range (sz % 8 % 4 % 2)).map (fun k =>
        .store8 .r10 (off + 8 * ((sz / 8 : Nat) : Int) +
          4 * ((sz % 8 / 4 : Nat) : Int) + 2 * ((sz % 8 % 4 / 2 : Nat) : Int) +
          (k : Int)) (b : Int)) := by
  unfold initStackChunks
  simp only []
  rw [memsetPattern_byte b hb, wrap32_memset b hb, wrap16_memset b hb,
    wrap8_memset b hb]
  congr 1
  · congr 1
    · congr 1
      · apply List.map_congr_left
        intro k hk
        simp only [List.mem_range] at hk
        rw [wrap16_id (by omega) (by omega)]
      · apply List.map_congr_left
        intro k hk
        simp only [List.mem_range] at hk
        rw [wrap16_id (by omega) (by omega)]
    · apply List.map_congr_left
      intro k hk
      simp only [List.mem_range] at hk
      rw [wrap16_id (by omega) (by omega)]
  · apply List.map_congr_left
    intro k hk
    simp only [List.mem_range] at hk
    rw [wrap16_id (by omega) (by omega)]

/-- Helper for C8: `emit_init_stack` in explicit chunk form. -/
theorem emit_init_stack_spec (st : CState) (off : Int) (b sz : Nat)
    (hb : b ≤ 127) (hoff : -32768 ≤ off) (hsum : off + sz ≤ 32767) :
    emit_init_stack st off (b : Int) sz =
      pushInsList st (
        (List.range (sz / 8)).map (fun k =>
          .store64 .r10 (off + 8 * (k : Int))
            ((b : Int) * 72340172838076673)) ++
        (List.range (sz % 8 / 4)).map (fun k =>
          .store32 .r10 (off + 8 * ((sz / 8 : Nat) : Int) + 4 * (k : Int))
            ((b : Int) * 16843009)) ++
        (List.range (sz % 8 % 4 / 2)).map (fun k =>
          .store16 .r10 (off + 8 * ((sz / 8 : Nat) : Int) +
            4 * ((sz % 8 / 4 : Nat) : Int) + 2 * (k : Int))
            ((b : Int) * 257)) ++
        (List.range (sz % 8 % 4 % 2)).map (fun k =>
          .store8 .r10 (off + 8 * ((sz / 8 : Nat) : Int) +
            4 * ((sz % 8 / 4 : Nat) : Int) +
            2 * ((sz % 8 % 4 / 2 : Nat) : Int) + (k : Int)) (b : Int))) := by
  unfold emit_init_stack
  rw [initStackChunks_spec off b sz hb hoff hsum]

/-- C8: an immediate assignment to a destination whose size is not 1, 2, 4,
or 8 bytes parses the literal as a signed 8-bit value `b` and tiles that
byte across the destination: store instructions in 8-, then 4-, then 2-,
then 1-byte chunks, greedily from the largest chunk down, each carrying the
byte-replicated immediate, at consecutive offsets covering exactly the
destination's size; and a digit literal not fitting the signed 8-bit range
fails with the bad-immediate error. -/
theorem c8_memset (st : CState) (s : String) (ct : QualifiedType) (off : Int)
    (sz b : Nat)
    (hbt : (∃ sg, ct.base_type = .integer sz sg) ∨
           ∃ mem, ct.base_type = .structTy sz mem)
    (h1 : sz ≠ 1) (h2 : sz ≠ 2) (h4 : sz ≠ 4) (h8 : sz ≠ 8)
    (hoff : -32768 ≤ off) (hsum : off + sz ≤ 32767) :
    (parseDecDigits s = some b → b ≤ 127 →
      emit_push_immediate st s ct (some off) =
        .ok (off, ct, pushInsList st (
          (List.range (sz / 8)).map (fun k =>
            .store64 .r10 (off + 8 * (k : Int))
              ((b : Int) * 72340172838076673)) ++
          (List.range (sz % 8 / 4)).map (fun k =>
            .store32 .r10 (off + 8 * ((sz / 8 : Nat) : Int) + 4 * (k : Int))
              ((b : Int) * 16843009)) ++
          (List.range (sz % 8 % 4 / 2)).map (fun k =>
            .store16 .r10 (off + 8 * ((sz / 8 : Nat) : Int) +
              4 * ((sz % 8 / 4 : Nat) : Int) + 2 * (k : Int))
              ((b : Int) * 257)) ++
          (List.range (sz % 8 % 4 % 2)).map (fun k =>
            .store8 .r10 (off + 8 * ((sz / 8 : Nat) : Int) +
              4 * ((sz % 8 / 4 : Nat) : Int) +
              2 * ((sz % 8 % 4 / 2 : Nat) : Int) + (k : Int)) (b : Int))))) ∧
    (parseDecDigits s = some b → 127 < b →
      emit_push_immediate st s ct (some off) =
        .error (msgBadImmediate st.exprNum s)) ∧
    8 * (sz / 8) + 4 * (sz % 8 / 4) + 2 * (sz % 8 % 4 / 2) + sz % 8 % 4 % 2 =
      sz := by
  refine ⟨?_, ?_, by omega⟩
  · intro hp hb
    have hparse : parse_immediate st 127 s = .ok b := by
      unfold parse_immediate
      rw [hp]
      simp [hb]
    unfold emit_push_immediate
    rcases hbt with ⟨sg, hbt⟩ | ⟨mem, hbt⟩ <;>
      rw [hbt] <;> simp only [except_pure_eq, except_bind_ok] <;>
      split <;>
      first
        | (rw [hparse]
           simp only [except_bind_ok, except_pure_eq]
           rw [emit_init_stack_spec st off b _ hb hoff hsum])
        | simp_all
  · intro hp hb
    have hparse : parse_immediate st 127 s =
        .error (msgBadImmediate st.exprNum s) := by
      unfold parse_immediate
      rw [hp]
      have : ¬ b ≤ 127 := by omega
      simp [this]
    unfold emit_push_immediate
    rcases hbt with ⟨sg, hbt⟩ | ⟨mem, hbt⟩ <;>
      rw [hbt] <;> simp only [except_pure_eq, except_bind_ok] <;>
      split <;>
      first
        | (rw [hparse]
           simp)
        | simp_all

/-- C8 witness: `7` written to a 5-byte struct destination at offset -8
becomes one 4-byte store of the replicated pattern and one 1-byte store,
covering the 5 bytes. -/
theorem c8_memset_witness :
    emit_push_immediate CState.create "7" ⟨.structTy 5 [], 0⟩ (some (-8)) =
      .ok (-8, ⟨.structTy 5 [], 0⟩, pushInsList CState.create
        [.store32 .r10 (-8) 117901063, .store8 .r10 (-4) 7]) := by
  have h := (c8_memset CState.create "7" ⟨.structTy 5 [], 0⟩ (-8) 5 7
    (Or.inr ⟨[], rfl⟩) (by decide) (by decide) (by decide) (by decide)
    (by norm_num) (by norm_num)).1 rfl (by decide)
  rw [h]
  decide

end BpfScript
